import Mathlib

/-!
Verification of the persistence subsystem of the task-manager
(`src/task_manager`): the hand-written JSON-like encoder/decoder in
`src/storage.cpp` together with the task data model of `include/task.h`
and the timestamp helpers of `src/utils.cpp`.

Strings are modelled as `List Char` (a byte/character sequence, as
`std::string` is).  Streams (`std::stringstream`) are modelled as the
remaining list of characters, with each extraction returning the value
read and the rest of the stream (`none` models the stream's fail state,
which every caller in the source checks right after the extraction).

`std::chrono::system_clock::time_point` is modelled as an `Int` counting
seconds since the Unix epoch (the source only ever converts time points
through `to_time_t`/`from_time_t`, so second resolution is the resolution
actually stored).  The C library functions `localtime`/`mktime`/
`put_time`/`get_time` used by `formatTimestamp`/`parseTimestamp` are
modelled for a fixed UTC-like (DST-free) timezone by an executable
proleptic-Gregorian calendar (`findYear`/`findMonth`/`daysToYear` below),
and `std::get_time` field parsing is modelled with bounded field widths
and ranges in `parseTmFields`.
-/

namespace TaskManager

/-- `enum class TaskStatus` from `include/task.h`. -/
inductive TaskStatus where
  | TODO
  | IN_PROGRESS
  | DONE
deriving DecidableEq, Repr

/-- `statusToString` from `include/task.h` (the `default: "unknown"` arm is
unreachable for the three-constructor enum and is dropped by the match). -/
def statusToString : TaskStatus → List Char
  | TaskStatus.TODO => "todo".toList
  | TaskStatus.IN_PROGRESS => "in-progress".toList
  | TaskStatus.DONE => "done".toList

/-- `stringToStatus` from `include/task.h`: `"in-progress"` and `"done"` map
to their statuses, everything else falls through to `TODO`. -/
def stringToStatus (statusStr : List Char) : TaskStatus :=
  if statusStr = "in-progress".toList then TaskStatus.IN_PROGRESS
  else if statusStr = "done".toList then TaskStatus.DONE
  else TaskStatus.TODO

/-- `struct Task` from `include/task.h`; the default constructor gives
`id 0`, empty description, `TODO`, and default (epoch) time points. -/
structure Task where
  id : Int
  description : List Char
  status : TaskStatus
  createdAt : Int
  updatedAt : Int
deriving DecidableEq, Repr

instance : Inhabited Task := ⟨⟨0, [], TaskStatus.TODO, 0, 0⟩⟩

/-- The characters trimmed from the whole file content by `loadTasks`
(`find_first_not_of(" \t\n\r")`). -/
def isTrimWs (c : Char) : Bool :=
  c = ' ' || c = '\t' || c = '\n' || c = '\r'

/-- The default-locale `isspace` set used by `std::ws` / skipping
whitespace in stream extractions. -/
def isCppSpace (c : Char) : Bool :=
  c = ' ' || c = '\t' || c = '\n' || c = '\x0b' || c = '\x0c' || c = '\r'

/-- The opening brace character. -/
def lbrace : Char := '\x7b'

/-- The closing brace character. -/
def rbrace : Char := '\x7d'

/-- `escapeJsonString` from `storage.cpp`: escape double quotes,
backslashes, and the five control characters into two-character
sequences; all other characters pass through unchanged. -/
def escapeJsonString (input : List Char) : List Char :=
  input.flatMap fun c =>
    if c = '"' then ['\\', '"']
    else if c = '\\' then ['\\', '\\']
    else if c = '\x08' then ['\\', 'b']
    else if c = '\x0c' then ['\\', 'f']
    else if c = '\n' then ['\\', 'n']
    else if c = '\r' then ['\\', 'r']
    else if c = '\t' then ['\\', 't']
    else [c]

/-!  ## Calendar model (UTC `localtime`/`mktime`)  -/

/-- Proleptic-Gregorian leap-year rule. -/
def isLeap (y : Int) : Bool :=
  (y % 4 == 0 && y % 100 != 0) || (y % 400 == 0)

/-- Number of days in year `y`. -/
def daysInYear (y : Int) : Int := if isLeap y then 366 else 365

/-- Days from 1970-01-01 to the start of year `1970 + n`. -/
def daysUp : Nat → Int
  | 0 => 0
  | n+1 => daysUp n + daysInYear (1970 + n)

/-- Days from the start of year `1970 - n` to 1970-01-01. -/
def daysDown : Nat → Int
  | 0 => 0
  | n+1 => daysDown n + daysInYear (1969 - n)

/-- Days from 1970-01-01 to the start of year `y` (negative before 1970). -/
def daysToYear (y : Int) : Int :=
  if 1970 ≤ y then daysUp (y - 1970).toNat else - daysDown ((1970 : Int) - y).toNat

/-- Length of month `m` (1-based) in year `y`. -/
def monthLen (y m : Int) : Int :=
  if m = 2 then (if isLeap y then 29 else 28)
  else if m = 4 ∨ m = 6 ∨ m = 9 ∨ m = 11 then 30
  else 31

/-- Days from the start of year `y` to the start of month `n + 1`. -/
def monthDaysAux (y : Int) : Nat → Int
  | 0 => 0
  | n+1 => monthDaysAux y n + monthLen y (1 + n)

/-- Walk from year `y` with day offset `z` (relative to the start of `y`)
to the year containing the day, returning that year and the day of year. -/
def findYear : Nat → Int → Int → Int × Int
  | 0, y, z => (y, z)
  | fuel+1, y, z =>
    if z < 0 then findYear fuel (y - 1) (z + daysInYear (y - 1))
    else if daysInYear y ≤ z then findYear fuel (y + 1) (z - daysInYear y)
    else (y, z)

/-- Walk from month `m` of year `y` with day offset `z` to the month
containing the day, returning that month and the day of month (0-based). -/
def findMonth : Nat → Int → Int → Int → Int × Int
  | 0, _, m, z => (m, z)
  | fuel+1, y, m, z =>
    if monthLen y m ≤ z then findMonth fuel y (m + 1) (z - monthLen y m)
    else (m, z)

/-- Broken-down time, as the fields of `std::tm` that the storage layer
reads and writes (year is the full year, month is 1-based). -/
structure Tm where
  year : Int
  month : Int
  day : Int
  hour : Int
  minute : Int
  second : Int
deriving DecidableEq, Repr

/-- Model of `localtime` for a UTC timezone: seconds since the epoch to
broken-down time. -/
def epochToTm (t : Int) : Tm :=
  let days := t / 86400
  let sod := t % 86400
  let yr := findYear (days.natAbs + 2) 1970 days
  let mr := findMonth 13 yr.1 1 yr.2
  ⟨yr.1, mr.1, mr.2 + 1, sod / 3600, sod % 3600 / 60, sod % 60⟩

/-- Days from 1970-01-01 to the civil date `y-m-d`. -/
def daysFromCivil (y m d : Int) : Int :=
  daysToYear y + monthDaysAux y (m - 1).toNat + (d - 1)

/-- Model of `mktime` for a UTC timezone: broken-down time to seconds
since the epoch. -/
def tmToEpoch (tm : Tm) : Int :=
  daysFromCivil tm.year tm.month tm.day * 86400
    + tm.hour * 3600 + tm.minute * 60 + tm.second

/-!  ## Decimal digits  -/

/-- The decimal digit character for a value in `[0, 9]`. -/
def digitChar : Nat → Char
  | 0 => '0'
  | 1 => '1'
  | 2 => '2'
  | 3 => '3'
  | 4 => '4'
  | 5 => '5'
  | 6 => '6'
  | 7 => '7'
  | 8 => '8'
  | _ => '9'

/-- Whether a character is a decimal digit. -/
def isDigitCh (c : Char) : Bool := 48 ≤ c.toNat && c.toNat ≤ 57

/-- Numeric value of a digit character. -/
def digitVal (c : Char) : Nat := c.toNat - 48

/-- Value of a list of digit characters, most significant first. -/
def valD (ds : List Char) : Nat := ds.foldl (fun a c => a * 10 + digitVal c) 0

/-- Decimal digits of `n`, most significant first (fuelled helper). -/
def natDigitsAux : Nat → Nat → List Char → List Char
  | 0, _, acc => acc
  | fuel+1, n, acc =>
    if n < 10 then digitChar n :: acc
    else natDigitsAux fuel (n / 10) (digitChar (n % 10) :: acc)

/-- Decimal digits of `n`, most significant first. -/
def natDigits (n : Nat) : List Char := natDigitsAux (n + 1) n []

/-- The characters `operator<<` prints for an `int` value. -/
def intToChars (n : Int) : List Char :=
  if n < 0 then '-' :: natDigits (-n).toNat else natDigits n.toNat

/-- Two-digit zero-padded rendering (as `put_time` `%m`/`%d`/`%H`/`%M`/`%S`). -/
def pad2 (n : Int) : List Char :=
  if 0 ≤ n ∧ n ≤ 99 then [digitChar (n.toNat / 10 % 10), digitChar (n.toNat % 10)]
  else intToChars n

/-- Four-digit zero-padded rendering (as `put_time` `%Y` for 4-digit years;
out-of-range years print all their digits). -/
def pad4 (n : Int) : List Char :=
  if 0 ≤ n ∧ n ≤ 9999 then
    [digitChar (n.toNat / 1000 % 10), digitChar (n.toNat / 100 % 10),
     digitChar (n.toNat / 10 % 10), digitChar (n.toNat % 10)]
  else intToChars n

/-!  ## Timestamp codec  -/

/-- Rendering of a broken-down time as `YYYY-MM-DD HH:MM:SS`
(`put_time(&local_tm, "%Y-%m-%d %H:%M:%S")`). -/
def renderTm (tm : Tm) : List Char :=
  pad4 tm.year ++ ('-' :: (pad2 tm.month ++ ('-' :: (pad2 tm.day
    ++ (' ' :: (pad2 tm.hour ++ (':' :: (pad2 tm.minute ++ (':' :: pad2 tm.second)))))))))

/-- `formatTimestamp` from `utils.cpp`: localtime + put_time, modelled
for a UTC timezone. -/
def formatTimestamp (tp : Int) : List Char := renderTm (epochToTm tp)

/-- Up to `w` leading digit characters of a stream, and the rest. -/
def readDigitsUpTo : Nat → List Char → List Char × List Char
  | 0, s => ([], s)
  | _+1, [] => ([], [])
  | w+1, c :: r =>
    if isDigitCh c then
      let p := readDigitsUpTo w r
      (c :: p.1, p.2)
    else ([], c :: r)

/-- One numeric field of `std::get_time`: at most `w` digits, at least one,
value within `[lo, hi]`. -/
def parseNumField (w : Nat) (lo hi : Int) (s : List Char) : Option (Int × List Char) :=
  let p := readDigitsUpTo w s
  if p.1 = [] then none
  else
    let v : Int := (valD p.1 : Nat)
    if lo ≤ v ∧ v ≤ hi then some (v, p.2) else none

/-- One literal character of a `std::get_time` format. -/
def expectChar (c : Char) : List Char → Option (List Char)
  | [] => none
  | x :: r => if x = c then some r else none

/-- The single optional whitespace character the `%d` conversion consumes
before the day digits (libstdc++ shares the `%d` and `%e` arms). -/
def skipOneSpace (s : List Char) : List Char :=
  match s with
  | [] => []
  | c :: r => if isCppSpace c then r else c :: r

/-- Model of `ss >> get_time(&tm, "%Y-%m-%d %H:%M:%S")`: the formatted
extraction's sentry first skips leading whitespace; then bounded-width
numeric fields with range checks, literal separators, one optional space
before the `%d` day digits, whitespace in the format matching any run of
whitespace; trailing input is ignored. -/
def parseTmFields (s : List Char) : Option Tm := do
  let s := s.dropWhile isCppSpace
  let (y, s) ← parseNumField 4 0 9999 s
  let s ← expectChar '-' s
  let (mo, s) ← parseNumField 2 1 12 s
  let s ← expectChar '-' s
  let s := skipOneSpace s
  let (d, s) ← parseNumField 2 1 31 s
  let s := s.dropWhile isCppSpace
  let (h, s) ← parseNumField 2 0 23 s
  let s ← expectChar ':' s
  let (mi, s) ← parseNumField 2 0 59 s
  let s ← expectChar ':' s
  let (sec, _) ← parseNumField 2 0 60 s
  pure ⟨y, mo, d, h, mi, sec⟩

/-- `parseTimestamp` from `storage.cpp`: `get_time` then `mktime`; a failed
field parse, or `mktime` returning `-1`, yields the epoch sentinel. -/
def parseTimestamp (timestampStr : List Char) : Int :=
  match parseTmFields timestampStr with
  | none => 0
  | some tm =>
    let t := tmToEpoch tm
    if t = -1 then 0 else t

/-!  ## Stream extractions  -/

/-- Body of `std::quoted` extraction after the opening quote (fuelled
helper): an escape character makes the following character literal; the
first unescaped quote ends the string; end of input before that is a
failure. -/
def quotedLoopFuel : Nat → List Char → List Char → Option (List Char × List Char)
  | 0, _, _ => none
  | fuel+1, s, acc =>
    match s with
    | [] => none
    | c :: r =>
      if c = '\\' then
        match r with
        | [] => none
        | c2 :: r2 => quotedLoopFuel fuel r2 (acc ++ [c2])
      else if c = '"' then some (acc, r)
      else quotedLoopFuel fuel r (acc ++ [c])

/-- Body of `std::quoted` extraction after the opening quote.  The fuel
bounds the number of characters consumed, so `length + 1` never runs
out. -/
def quotedLoop (s acc : List Char) : Option (List Char × List Char) :=
  quotedLoopFuel (s.length + 1) s acc

/-- `ss >> std::quoted(str)`: skip whitespace; if the next character is a
quote, read a quoted string, otherwise fall back to plain string
extraction (a maximal run of non-whitespace characters, failing if
empty, which happens exactly at end of input). -/
def readQuoted (s : List Char) : Option (List Char × List Char) :=
  match s.dropWhile isCppSpace with
  | [] => none
  | c :: r =>
    if c = '"' then quotedLoop r []
    else
      let tok := (c :: r).takeWhile (fun x => !isCppSpace x)
      if tok = [] then none else some (tok, (c :: r).drop tok.length)

/-- The digit part of `int` extraction: at least one digit, value within
the 32-bit range (overflow sets the fail state). -/
def readIntCore (neg : Bool) (r : List Char) : Option (Int × List Char) :=
  let ds := r.takeWhile isDigitCh
  if ds = [] then none
  else
    let v0 : Int := (valD ds : Nat)
    let v := if neg then -v0 else v0
    if v < -(2 ^ 31) ∨ 2 ^ 31 - 1 < v then none
    else some (v, r.drop ds.length)

/-- `ss >> numeric_id_value` for `int`: skip whitespace, optional sign,
then digits. -/
def readIntVal (s : List Char) : Option (Int × List Char) :=
  match s.dropWhile isCppSpace with
  | [] => none
  | c :: r =>
    if c = '-' then readIntCore true r
    else if c = '+' then readIntCore false r
    else readIntCore false (c :: r)

/-!  ## Object parser  -/

/-- A parsed value: a bare integer or a quoted (already unescaped) string. -/
inductive JVal where
  | num (n : Int)
  | str (s : List Char)
deriving DecidableEq, Repr

/-- Step 4 of `parseTaskObject`: assign a parsed value to the task field
named by `key`.  A quoted value for `id` fails the object; the four text
fields read `valueStr`, which a numeric value leaves unchanged (stale);
unknown keys are ignored. -/
def applyField (key : List Char) (v : JVal) (valueStr : List Char) (task : Task) : Option Task :=
  if key = "id".toList then
    match v with
    | JVal.num n => some { task with id := n }
    | JVal.str _ => none
  else if key = "description".toList then some { task with description := valueStr }
  else if key = "status".toList then some { task with status := stringToStatus valueStr }
  else if key = "createdAt".toList then some { task with createdAt := parseTimestamp valueStr }
  else if key = "updatedAt".toList then some { task with updatedAt := parseTimestamp valueStr }
  else some task

/-- The key/value loop of `parseTaskObject` (steps 1-5), on the stream
after the opening brace, with whitespace already skipped.  `valueStr`
carries the last quoted value string across iterations, as the C++
variable does. -/
def parseLoopFuel : Nat → List Char → List Char → Task → Option Task
  | 0, _, _, _ => none
  | fuel+1, s, valueStr, task =>
    match s with
    | [] => some task
    | c :: _ =>
      if c = rbrace then some task
      else
        match readQuoted s with
        | none => none
        | some (key, s1) =>
          match s1.dropWhile isCppSpace with
          | [] => none
          | c2 :: s2 =>
            if c2 ≠ ':' then none
            else
              let s3 := s2.dropWhile isCppSpace
              let vres : Option ((JVal × List Char) × List Char) :=
                if s3.head? = some '"' then
                  match readQuoted s3 with
                  | none => none
                  | some (v, s4) => some ((JVal.str v, v), s4)
                else
                  match readIntVal s3 with
                  | none => none
                  | some (n, s4) => some ((JVal.num n, valueStr), s4)
              match vres with
              | none => none
              | some ((v, valueStr'), s4) =>
                match applyField key v valueStr' task with
                | none => none
                | some task' =>
                  match s4.dropWhile isCppSpace with
                  | [] => none
                  | c5 :: s6 =>
                    if c5 = ',' then parseLoopFuel fuel (s6.dropWhile isCppSpace) valueStr' task'
                    else if c5 = rbrace then some task' else none

/-- `parseTaskObject` from `storage.cpp`: brace validation, then the
key/value loop on a default-constructed task. -/
def parseTaskObject (objStr : List Char) : Option Task :=
  if objStr = [] ∨ objStr.head? ≠ some lbrace ∨ objStr.getLast? ≠ some rbrace then none
  else parseLoopFuel (objStr.length + 1) ((objStr.drop 1).dropWhile isCppSpace) [] default

/-!  ## File parser  -/

/-- Whole-content trimming in `loadTasks` (`erase` of leading and trailing
characters of `" \t\n\r"`). -/
def trimContent (content : List Char) : List Char :=
  ((content.dropWhile isTrimWs).reverse.dropWhile isTrimWs).reverse

/-- `content.find(c, start)` (fuelled helper). -/
def findFromFuel : Nat → List Char → Char → Nat → Option Nat
  | 0, _, _, _ => none
  | fuel+1, cs, c, start =>
    if start < cs.length then
      if cs.getD start ' ' = c then some start else findFromFuel fuel cs c (start + 1)
    else none

/-- `content.find(c, start)`: index of the first occurrence of `c` at or
after `start`, if any. -/
def strFind (cs : List Char) (c : Char) (start : Nat) : Option Nat :=
  findFromFuel (cs.length + 1 - start) cs c start

/-- The brace-depth loop of `loadTasks` (fuelled helper): from `pos`,
increment on an opening brace, decrement on a closing brace, stop at the
position where the level returns to zero; positions are examined only
while `pos < length - 1`, and exhaustion means mismatched braces. -/
def braceScanFuel : Nat → List Char → Nat → Int → Option Nat
  | 0, _, _, _ => none
  | fuel+1, cs, pos, level =>
    if pos < cs.length - 1 then
      let ch := cs.getD pos ' '
      if ch = lbrace then braceScanFuel fuel cs (pos + 1) (level + 1)
      else if ch = rbrace then
        if level - 1 = 0 then some pos else braceScanFuel fuel cs (pos + 1) (level - 1)
      else braceScanFuel fuel cs (pos + 1) level
    else none

/-- The brace-depth scan of `loadTasks` starting at an opening brace. -/
def braceScan (cs : List Char) (pos : Nat) : Option Nat :=
  braceScanFuel (cs.length + 1) cs pos 0

/-- The object-scanning loop of `loadTasks`: find the next opening brace,
match its closing brace (aborting the whole parse to an empty list on
mismatch), try to parse the delimited object (skipping it on failure),
and continue after the closing brace. -/
def scanLoopFuel : Nat → List Char → Nat → List Task → List Task
  | 0, _, _, tasks => tasks
  | fuel+1, content, startPos, tasks =>
    if startPos < content.length - 1 then
      match strFind content lbrace startPos with
      | none => tasks
      | some objStartPos =>
        match braceScan content objStartPos with
        | none => []
        | some objEndPos =>
          let taskStr := (content.drop objStartPos).take (objEndPos - objStartPos + 1)
          let tasks' :=
            match parseTaskObject taskStr with
            | some task => tasks ++ [task]
            | none => tasks
          scanLoopFuel fuel content (objEndPos + 1) tasks'
    else tasks

/-- `loadTasks` on the raw text of an existing file: trim, validate the
top-level array framing, then scan the objects. -/
def loadTasksFromContent (raw : List Char) : List Task :=
  let content := trimContent raw
  if content.length ≤ 1 ∨ content.head? ≠ some '[' ∨ content.getLast? ≠ some ']' then []
  else scanLoopFuel (content.length + 1) content 1 []

/-- `loadTasks` from `storage.cpp`: an unopenable/absent file (`none`)
yields the empty list, otherwise the content is parsed. -/
def loadTasks (file : Option (List Char)) : List Task :=
  match file with
  | none => []
  | some raw => loadTasksFromContent raw

/-!  ## Serializer  -/

/-- The text `saveTasks` writes for one task (without the separating
comma): ` {`, the five fields in fixed order, ` }`. -/
def serializeTaskLines (task : Task) : List Char :=
  ' ' :: lbrace :: '\n' ::
  ("   \"id\": ".toList ++ intToChars task.id ++ ",\n".toList) ++
  ("   \"description\": \"".toList ++ escapeJsonString task.description ++ "\",\n".toList) ++
  ("   \"status\": \"".toList ++ statusToString task.status ++ "\",\n".toList) ++
  ("   \"createdAt\": \"".toList ++ formatTimestamp task.createdAt ++ "\",\n".toList) ++
  ("   \"updatedAt\": \"".toList ++ formatTimestamp task.updatedAt ++ "\"\n".toList) ++
  [' ', rbrace]

/-- The task objects of the array, comma-separated (a comma after every
object except the last, then a newline). -/
def serializeBody : List Task → List Char
  | [] => []
  | [task] => serializeTaskLines task ++ ['\n']
  | task :: rest => serializeTaskLines task ++ [',', '\n'] ++ serializeBody rest

/-- The full file text `saveTasks` writes. -/
def saveTasksContent (tasks : List Task) : List Char :=
  '[' :: '\n' :: serializeBody tasks ++ [']', '\n']

/-- `saveTasks` as a file-state transformer: `canOpen` models whether the
destination could be opened for writing; on failure the function returns
without writing and the disk state is unchanged. -/
def saveTasks (canOpen : Bool) (tasks : List Task) (disk : Option (List Char)) :
    Option (List Char) :=
  if canOpen then some (saveTasksContent tasks) else disk

/-- The sequence of stream writes `saveTasks` performs (empty when the
destination cannot be opened, because the function returns first). -/
def saveTasksWrites (canOpen : Bool) (tasks : List Task) : List (List Char) :=
  if canOpen then [saveTasksContent tasks] else []

/-!  ## Specification-side notions used to state the lemmas and claims  -/

/-- The five control characters whose two-character escapes `std::quoted`
extraction does not undo (it maps `\x` to plain `x`). -/
def isEscCtl (c : Char) : Bool :=
  c = '\x08' || c = '\x0c' || c = '\n' || c = '\r' || c = '\t'

/-- Rendering of one value in the serializer's layout. -/
def renderJVal : JVal → List Char
  | JVal.num n => intToChars n
  | JVal.str v => '"' :: (escapeJsonString v ++ ['"'])

/-- The key/value lines of a serialized object: three spaces of indent,
quoted key, colon, space, value, a comma after every pair except the
last, then a newline. -/
def renderPairsBody : List (List Char × JVal) → List Char
  | [] => []
  | (k, v) :: rest =>
    ' ' :: ' ' :: ' ' :: '"' :: (k ++ ('"' :: ':' :: ' ' :: (renderJVal v
      ++ ((if rest = [] then [] else [',']) ++ ('\n' :: renderPairsBody rest)))))

/-- A serialized object: brace, newline, pairs, space, closing brace. -/
def mkObjStr (ps : List (List Char × JVal)) : List Char :=
  lbrace :: '\n' :: (renderPairsBody ps ++ [' ', rbrace])

/-- The fold of `applyField` over a pair list, tracking the `valueStr`
variable; `none` when some field assignment fails. -/
def applyPairs : List (List Char × JVal) → List Char → Task → Option (Task × List Char)
  | [], vs, t => some (t, vs)
  | (k, v) :: rest, vs, t =>
    let vs' := match v with
      | JVal.str s => s
      | JVal.num _ => vs
    match applyField k v vs' t with
    | none => none
    | some t' => applyPairs rest vs' t'

/-- Well-formedness of a rendered pair: the key contains no quote or
backslash (true of the five field names), a string value contains none of
the five control characters, and a numeric value fits in 32 bits. -/
def GoodPair : List Char × JVal → Prop
  | (k, v) =>
    (∀ c ∈ k, c ≠ '"' ∧ c ≠ '\\') ∧
      (match v with
       | JVal.num n => -(2 ^ 31) ≤ n ∧ n ≤ 2 ^ 31 - 1
       | JVal.str s => ∀ c ∈ s, isEscCtl c = false)

/-- The five pairs the serializer writes for a task. -/
def taskPairs (task : Task) : List (List Char × JVal) :=
  [("id".toList, JVal.num task.id),
   ("description".toList, JVal.str task.description),
   ("status".toList, JVal.str (statusToString task.status)),
   ("createdAt".toList, JVal.str (formatTimestamp task.createdAt)),
   ("updatedAt".toList, JVal.str (formatTimestamp task.updatedAt))]

/-- The restriction under which the save/load round trip is exact: the
description avoids the five control characters (whose escapes decode to
plain letters) and braces (which derail the brace-depth scan); the id is
a 32-bit value (as every C++ `int` is); and the timestamps are
nonnegative and before year 10000 (so `%Y` renders as exactly four
digits and `mktime` does not return the `-1` that `parseTimestamp`
treats as failure). -/
def GoodTask (task : Task) : Prop :=
  (∀ c ∈ task.description, isEscCtl c = false ∧ c ≠ lbrace ∧ c ≠ rbrace) ∧
    -(2 ^ 31) ≤ task.id ∧ task.id ≤ 2 ^ 31 - 1 ∧
    0 ≤ task.createdAt ∧ task.createdAt ≤ 253402300799 ∧
    0 ≤ task.updatedAt ∧ task.updatedAt ≤ 253402300799

instance : DecidablePred GoodPair := fun p =>
  match p with
  | (k, JVal.num n) => inferInstanceAs (Decidable ((∀ c ∈ k, c ≠ '"' ∧ c ≠ '\\') ∧
      (-(2 ^ 31) ≤ n ∧ n ≤ 2 ^ 31 - 1)))
  | (k, JVal.str s) => inferInstanceAs (Decidable ((∀ c ∈ k, c ≠ '"' ∧ c ≠ '\\') ∧
      ∀ c ∈ s, isEscCtl c = false))

instance : DecidablePred GoodTask := by
  intro task
  unfold GoodTask
  infer_instance

/-!  ## Calendar lemmas  -/

lemma daysInYear_cases (y : Int) : daysInYear y = 365 ∨ daysInYear y = 366 := by
  unfold daysInYear; split <;> simp

lemma daysInYear_lb (y : Int) : 365 ≤ daysInYear y := by
  rcases daysInYear_cases y with h | h <;> omega

lemma daysInYear_ub (y : Int) : daysInYear y ≤ 366 := by
  rcases daysInYear_cases y with h | h <;> omega

lemma isLeap_add_400 (y : Int) : isLeap (y + 400) = isLeap y := by
  unfold isLeap
  have h4 : (y + 400) % 4 = y % 4 := by omega
  have h100 : (y + 400) % 100 = y % 100 := by omega
  have h400 : (y + 400) % 400 = y % 400 := by omega
  rw [h4, h100, h400]

lemma daysInYear_add_400 (y : Int) : daysInYear (y + 400) = daysInYear y := by
  unfold daysInYear; rw [isLeap_add_400]

lemma daysToYear_1970 : daysToYear 1970 = 0 := by decide

lemma daysToYear_succ (y : Int) : daysToYear (y + 1) = daysToYear y + daysInYear y := by
  unfold daysToYear
  by_cases h : 1970 ≤ y
  · rw [if_pos (by omega), if_pos h]
    have h1 : (y + 1 - 1970).toNat = (y - 1970).toNat + 1 := by omega
    rw [h1, daysUp]
    have h2 : (1970 : Int) + ((y - 1970).toNat : Int) = y := by omega
    rw [h2]
  · rw [if_neg h]
    by_cases h' : 1970 ≤ y + 1
    · have hy : y = 1969 := by omega
      subst hy
      decide
    · rw [if_neg h']
      have h1 : ((1970 : Int) - y).toNat = ((1970 : Int) - (y + 1)).toNat + 1 := by omega
      rw [h1, daysDown]
      have h2 : (1969 : Int) - (((1970 : Int) - (y + 1)).toNat : Int) = y := by omega
      rw [h2]
      ring

lemma daysToYear_mono_nat : ∀ (n : Nat) (y : Int), daysToYear y ≤ daysToYear (y + n)
  | 0, y => by norm_num
  | n+1, y => by
    have h1 := daysToYear_mono_nat n y
    have h2 := daysToYear_succ (y + n)
    have h3 := daysInYear_lb (y + n)
    have h4 : (y + ((n + 1 : Nat) : Int)) = (y + n) + 1 := by push_cast; ring
    rw [h4, h2]
    omega

lemma daysToYear_mono (y1 y2 : Int) (h : y1 ≤ y2) : daysToYear y1 ≤ daysToYear y2 := by
  have h1 := daysToYear_mono_nat (y2 - y1).toNat y1
  have h2 : y1 + ((y2 - y1).toNat : Int) = y2 := by omega
  rw [h2] at h1
  exact h1

set_option maxRecDepth 4000 in
lemma daysUp_chunk : ∀ n : Nat, daysUp (n + 400) = daysUp n + 146097
  | 0 => by decide
  | n+1 => by
    have h1 : n + 1 + 400 = (n + 400) + 1 := by omega
    rw [h1, daysUp, daysUp_chunk n, daysUp]
    have h2 : (1970 : Int) + ((n + 400 : Nat) : Int) = (1970 + (n : Int)) + 400 := by
      push_cast; ring
    rw [h2, daysInYear_add_400]
    ring

lemma daysUp_chunks : ∀ (k n : Nat), daysUp (n + 400 * k) = daysUp n + 146097 * k
  | 0, n => by norm_num
  | k+1, n => by
    have h1 : n + 400 * (k + 1) = (n + 400 * k) + 400 := by ring
    rw [h1, daysUp_chunk, daysUp_chunks k n]
    push_cast
    ring

lemma daysToYear_10000 : daysToYear 10000 = 2932897 := by
  unfold daysToYear
  rw [if_pos (by norm_num)]
  rw [show ((10000 : Int) - 1970).toNat = 30 + 400 * 20 by omega]
  rw [daysUp_chunks 20 30]
  decide

lemma findYear_done (fuel : Nat) (y z : Int) (h1 : 0 ≤ z) (h2 : z < daysInYear y) :
    findYear fuel y z = (y, z) := by
  cases fuel with
  | zero => rfl
  | succ n =>
    show findYear (n + 1) y z = (y, z)
    rw [findYear, if_neg (by omega), if_neg (by omega)]

lemma findYear_spec (fuel : Nat) :
    ∀ (y z : Int), z.natAbs + 366 ≤ 365 * fuel →
      daysToYear (findYear fuel y z).1 + (findYear fuel y z).2 = daysToYear y + z ∧
      0 ≤ (findYear fuel y z).2 ∧
      (findYear fuel y z).2 < daysInYear (findYear fuel y z).1 := by
  induction fuel with
  | zero => intro y z h; omega
  | succ fuel ih =>
    intro y z h
    have hlb1 := daysInYear_lb (y - 1)
    have hub1 := daysInYear_ub (y - 1)
    have hlb := daysInYear_lb y
    have hub := daysInYear_ub y
    have hs1 : daysToYear y = daysToYear (y - 1) + daysInYear (y - 1) := by
      have := daysToYear_succ (y - 1)
      have he : y - 1 + 1 = y := by ring
      rw [he] at this
      exact this
    have hs2 := daysToYear_succ y
    rw [show fuel + 1 = fuel.succ from rfl, findYear]
    by_cases hz : z < 0
    · rw [if_pos hz]
      by_cases hz2 : z + daysInYear (y - 1) < 0
      · have hrec := ih (y - 1) (z + daysInYear (y - 1)) (by omega)
        refine ⟨?_, hrec.2.1, hrec.2.2⟩
        rw [hrec.1]
        omega
      · rw [findYear_done fuel _ _ (by omega) (by omega)]
        refine ⟨by simp; omega, by simp; omega, by simp; omega⟩
    · rw [if_neg hz]
      by_cases hz3 : daysInYear y ≤ z
      · rw [if_pos hz3]
        have hrec := ih (y + 1) (z - daysInYear y) (by omega)
        refine ⟨?_, hrec.2.1, hrec.2.2⟩
        rw [hrec.1]
        omega
      · rw [if_neg hz3]
        exact ⟨by simp, by simp; omega, by simp; omega⟩

lemma monthLen_lb (y m : Int) : 28 ≤ monthLen y m := by
  unfold monthLen; split_ifs <;> omega

lemma monthLen_ub (y m : Int) : monthLen y m ≤ 31 := by
  unfold monthLen; split_ifs <;> omega

lemma monthDaysAux_12 (y : Int) : monthDaysAux y 12 = daysInYear y := by
  by_cases h : isLeap y = true
  · show monthDaysAux y 12 = daysInYear y
    norm_num [monthDaysAux, monthLen, daysInYear, h]
  · norm_num [monthDaysAux, monthLen, daysInYear, h]

lemma monthDaysAux_step (y m : Int) (h : 1 ≤ m) :
    monthDaysAux y m.toNat = monthDaysAux y (m - 1).toNat + monthLen y m := by
  have h1 : m.toNat = (m - 1).toNat + 1 := by omega
  rw [h1, monthDaysAux]
  have h2 : (1 : Int) + (((m - 1).toNat : Nat) : Int) = m := by omega
  rw [h2]

lemma findMonth_spec (fuel : Nat) :
    ∀ (y m z : Int), 1 ≤ m → m ≤ 12 → 0 ≤ z →
      z < monthDaysAux y 12 - monthDaysAux y (m - 1).toNat →
      (13 - m).toNat ≤ fuel →
      monthDaysAux y ((findMonth fuel y m z).1 - 1).toNat + (findMonth fuel y m z).2
          = monthDaysAux y (m - 1).toNat + z ∧
        1 ≤ (findMonth fuel y m z).1 ∧ (findMonth fuel y m z).1 ≤ 12 ∧
        0 ≤ (findMonth fuel y m z).2 ∧
        (findMonth fuel y m z).2 < monthLen y (findMonth fuel y m z).1 := by
  induction fuel with
  | zero => intro y m z h1 h2 h3 h4 h5; omega
  | succ fuel ih =>
    intro y m z h1 h2 h3 h4 h5
    rw [show fuel + 1 = fuel.succ from rfl, findMonth]
    by_cases hlen : monthLen y m ≤ z
    · rw [if_pos hlen]
      have hstepm := monthDaysAux_step y m h1
      have hm12 : m ≤ 11 := by
        by_contra hm
        have hmeq : m = 12 := by omega
        subst hmeq
        rw [show ((12 : Int) - 1).toNat = 11 by omega] at h4
        rw [show ((12 : Int)).toNat = 12 by omega,
          show ((12 : Int) - 1).toNat = 11 by omega] at hstepm
        omega
      have he1 : m + 1 - 1 = m := by ring
      have hrec := ih y (m + 1) (z - monthLen y m) (by omega) (by omega) (by omega)
        (by rw [he1]; omega)
        (by omega)
      rw [he1] at hrec
      refine ⟨?_, hrec.2.1, hrec.2.2.1, hrec.2.2.2.1, hrec.2.2.2.2⟩
      rw [hrec.1]
      omega
    · rw [if_neg hlen]
      exact ⟨by simp, by simp; omega, by simp; omega, by simp; omega, by simp; omega⟩

lemma monthDaysAux_zero (y : Int) : monthDaysAux y ((1 : Int) - 1).toNat = 0 := by
  rw [show ((1 : Int) - 1).toNat = 0 by omega]
  rfl

lemma tmToEpoch_epochToTm (t : Int) : tmToEpoch (epochToTm t) = t := by
  simp only [epochToTm, tmToEpoch, daysFromCivil]
  set days := t / 86400 with hdays
  set sod := t % 86400 with hsod
  have hsod0 : 0 ≤ sod := Int.emod_nonneg t (by norm_num)
  have hsod1 : sod < 86400 := Int.emod_lt_of_pos t (by norm_num)
  have hy := findYear_spec (days.natAbs + 2) 1970 days (by omega)
  set yr := findYear (days.natAbs + 2) 1970 days with hyr
  have hzlt : yr.2 < monthDaysAux yr.1 12 - monthDaysAux yr.1 ((1 : Int) - 1).toNat := by
    rw [monthDaysAux_12, monthDaysAux_zero]
    omega
  have hm := findMonth_spec 13 yr.1 1 yr.2 (by norm_num) (by norm_num) hy.2.1 hzlt
    (by norm_num)
  set mr := findMonth 13 yr.1 1 yr.2 with hmr
  rw [monthDaysAux_zero] at hm
  rw [daysToYear_1970] at hy
  omega

lemma epochToTm_bounds (t : Int) (h0 : 0 ≤ t) (h1 : t ≤ 253402300799) :
    1970 ≤ (epochToTm t).year ∧ (epochToTm t).year ≤ 9999 ∧
      1 ≤ (epochToTm t).month ∧ (epochToTm t).month ≤ 12 ∧
      1 ≤ (epochToTm t).day ∧ (epochToTm t).day ≤ 31 ∧
      0 ≤ (epochToTm t).hour ∧ (epochToTm t).hour ≤ 23 ∧
      0 ≤ (epochToTm t).minute ∧ (epochToTm t).minute ≤ 59 ∧
      0 ≤ (epochToTm t).second ∧ (epochToTm t).second ≤ 59 := by
  simp only [epochToTm]
  set days := t / 86400 with hdays
  set sod := t % 86400 with hsod
  have hsod0 : 0 ≤ sod := Int.emod_nonneg t (by norm_num)
  have hsod1 : sod < 86400 := Int.emod_lt_of_pos t (by norm_num)
  have hdb : 0 ≤ days ∧ days ≤ 2932896 := by omega
  have hy := findYear_spec (days.natAbs + 2) 1970 days (by omega)
  set yr := findYear (days.natAbs + 2) 1970 days with hyr
  rw [daysToYear_1970] at hy
  have hylb : 1970 ≤ yr.1 := by
    rcases le_or_lt 1970 yr.1 with h | h
    · exact h
    · exfalso
      have hm1 := daysToYear_mono (yr.1 + 1) 1970 (by omega)
      have hm2 := daysToYear_succ yr.1
      rw [daysToYear_1970] at hm1
      omega
  have hyub : yr.1 ≤ 9999 := by
    rcases le_or_lt yr.1 9999 with h | h
    · exact h
    · exfalso
      have hm1 := daysToYear_mono 10000 yr.1 (by omega)
      rw [daysToYear_10000] at hm1
      omega
  have hzlt : yr.2 < monthDaysAux yr.1 12 - monthDaysAux yr.1 ((1 : Int) - 1).toNat := by
    rw [monthDaysAux_12, monthDaysAux_zero]
    omega
  have hm := findMonth_spec 13 yr.1 1 yr.2 (by norm_num) (by norm_num) hy.2.1 hzlt
    (by norm_num)
  set mr := findMonth 13 yr.1 1 yr.2 with hmr
  have hml := monthLen_ub yr.1 mr.1
  refine ⟨hylb, hyub, hm.2.1, hm.2.2.1, by omega, by omega, by omega,
    by omega, by omega, by omega, by omega, by omega⟩

/-!  ## Digit lemmas  -/

lemma digitVal_digitChar (k : Nat) (h : k ≤ 9) : digitVal (digitChar k) = k := by
  interval_cases k <;> decide

lemma isDigitCh_digitChar (k : Nat) (h : k ≤ 9) : isDigitCh (digitChar k) = true := by
  interval_cases k <;> decide

lemma valD_two (a b : Char) : valD [a, b] = 10 * digitVal a + digitVal b := by
  simp [valD, List.foldl]
  ring

lemma valD_four (a b c d : Char) :
    valD [a, b, c, d] =
      ((digitVal a * 10 + digitVal b) * 10 + digitVal c) * 10 + digitVal d := by
  simp [valD, List.foldl]

lemma valD_append_one (xs : List Char) (c : Char) :
    valD (xs ++ [c]) = valD xs * 10 + digitVal c := by
  simp [valD, List.foldl_append, List.foldl]

lemma readDigitsUpTo_two (a b : Char) (rest : List Char)
    (ha : isDigitCh a = true) (hb : isDigitCh b = true) :
    readDigitsUpTo 2 (a :: b :: rest) = ([a, b], rest) := by
  simp [readDigitsUpTo, ha, hb]

lemma readDigitsUpTo_four (a b c d : Char) (rest : List Char)
    (ha : isDigitCh a = true) (hb : isDigitCh b = true)
    (hc : isDigitCh c = true) (hd : isDigitCh d = true) :
    readDigitsUpTo 4 (a :: b :: c :: d :: rest) = ([a, b, c, d], rest) := by
  simp [readDigitsUpTo, ha, hb, hc, hd]

lemma pad2_eq (n : Int) (h0 : 0 ≤ n) (h99 : n ≤ 99) :
    pad2 n = [digitChar (n.toNat / 10 % 10), digitChar (n.toNat % 10)] := by
  unfold pad2
  rw [if_pos ⟨h0, h99⟩]

lemma pad4_eq (n : Int) (h0 : 0 ≤ n) (h9999 : n ≤ 9999) :
    pad4 n = [digitChar (n.toNat / 1000 % 10), digitChar (n.toNat / 100 % 10),
      digitChar (n.toNat / 10 % 10), digitChar (n.toNat % 10)] := by
  unfold pad4
  rw [if_pos ⟨h0, h9999⟩]

lemma parseNumField_pad2 (n lo hi : Int) (rest : List Char) (h0 : 0 ≤ n) (h99 : n ≤ 99)
    (hlo : lo ≤ n) (hhi : n ≤ hi) :
    parseNumField 2 lo hi (pad2 n ++ rest) = some (n, rest) := by
  rw [pad2_eq n h0 h99]
  unfold parseNumField
  rw [show [digitChar (n.toNat / 10 % 10), digitChar (n.toNat % 10)] ++ rest
      = digitChar (n.toNat / 10 % 10) :: digitChar (n.toNat % 10) :: rest from rfl]
  rw [readDigitsUpTo_two _ _ _ (isDigitCh_digitChar _ (by omega))
    (isDigitCh_digitChar _ (by omega))]
  have hv : ((valD [digitChar (n.toNat / 10 % 10), digitChar (n.toNat % 10)] : Nat) : Int)
      = n := by
    rw [valD_two, digitVal_digitChar _ (by omega), digitVal_digitChar _ (by omega)]
    omega
  simp only [hv]
  rw [if_neg (by simp), if_pos ⟨hlo, hhi⟩]

lemma parseNumField_pad4 (n lo hi : Int) (rest : List Char) (h0 : 0 ≤ n) (h9 : n ≤ 9999)
    (hlo : lo ≤ n) (hhi : n ≤ hi) :
    parseNumField 4 lo hi (pad4 n ++ rest) = some (n, rest) := by
  rw [pad4_eq n h0 h9]
  unfold parseNumField
  rw [show [digitChar (n.toNat / 1000 % 10), digitChar (n.toNat / 100 % 10),
      digitChar (n.toNat / 10 % 10), digitChar (n.toNat % 10)] ++ rest
      = digitChar (n.toNat / 1000 % 10) :: digitChar (n.toNat / 100 % 10)
        :: digitChar (n.toNat / 10 % 10) :: digitChar (n.toNat % 10) :: rest from rfl]
  rw [readDigitsUpTo_four _ _ _ _ _ (isDigitCh_digitChar _ (by omega))
    (isDigitCh_digitChar _ (by omega)) (isDigitCh_digitChar _ (by omega))
    (isDigitCh_digitChar _ (by omega))]
  have hv : ((valD [digitChar (n.toNat / 1000 % 10), digitChar (n.toNat / 100 % 10),
      digitChar (n.toNat / 10 % 10), digitChar (n.toNat % 10)] : Nat) : Int) = n := by
    rw [valD_four, digitVal_digitChar _ (by omega), digitVal_digitChar _ (by omega),
      digitVal_digitChar _ (by omega), digitVal_digitChar _ (by omega)]
    omega
  simp only [hv]
  rw [if_neg (by simp), if_pos ⟨hlo, hhi⟩]

/-!  ## natDigits lemmas  -/

lemma natDigitsAux_small (fuel n : Nat) (acc : List Char) (h : n < 10) :
    natDigitsAux (fuel + 1) n acc = digitChar n :: acc := by
  simp [natDigitsAux, h]

lemma natDigits_small (n : Nat) (h : n < 10) : natDigits n = [digitChar n] := by
  unfold natDigits
  rw [natDigitsAux_small _ _ _ h]

lemma natDigitsAux_append (fuel : Nat) : ∀ (n : Nat) (acc : List Char), n < fuel →
    natDigitsAux fuel n acc = natDigitsAux fuel n [] ++ acc := by
  induction fuel with
  | zero => intro n acc h; omega
  | succ fuel ih =>
    intro n acc h
    by_cases h10 : n < 10
    · rw [natDigitsAux_small _ _ _ h10, natDigitsAux_small _ _ _ h10]
      rfl
    · simp only [natDigitsAux, if_neg h10]
      rw [ih (n / 10) _ (by omega), ih (n / 10) [digitChar (n % 10)] (by omega)]
      simp

lemma natDigitsAux_congr (f1 : Nat) : ∀ (f2 n : Nat), n < f1 → n < f2 →
    natDigitsAux f1 n [] = natDigitsAux f2 n [] := by
  induction f1 with
  | zero => intro f2 n h1 h2; omega
  | succ f1 ih =>
    intro f2 n h1 h2
    cases f2 with
    | zero => omega
    | succ f2 =>
      by_cases h10 : n < 10
      · rw [natDigitsAux_small _ _ _ h10, natDigitsAux_small _ _ _ h10]
      · simp only [natDigitsAux, if_neg h10]
        rw [natDigitsAux_append f1 _ _ (by omega), natDigitsAux_append f2 _ _ (by omega),
          ih f2 (n / 10) (by omega) (by omega)]

lemma natDigits_cons (n : Nat) (h : 10 ≤ n) :
    natDigits n = natDigits (n / 10) ++ [digitChar (n % 10)] := by
  show natDigitsAux (n + 1) n [] = natDigitsAux (n / 10 + 1) (n / 10) [] ++ _
  conv_lhs => rw [natDigitsAux]
  rw [if_neg (by omega)]
  rw [natDigitsAux_append n (n / 10) _ (by omega)]
  rw [natDigitsAux_congr n (n / 10 + 1) (n / 10) (by omega) (by omega)]

lemma natDigits_digits (n : Nat) : ∀ c ∈ natDigits n, isDigitCh c = true := by
  induction n using Nat.strong_induction_on with
  | _ n ih =>
    by_cases h : n < 10
    · rw [natDigits_small n h]
      intro c hc
      simp at hc
      subst hc
      exact isDigitCh_digitChar n (by omega)
    · rw [natDigits_cons n (by omega)]
      intro c hc
      rw [List.mem_append] at hc
      rcases hc with hc | hc
      · exact ih (n / 10) (by omega) c hc
      · simp at hc
        subst hc
        exact isDigitCh_digitChar _ (by omega)

lemma valD_natDigits (n : Nat) : valD (natDigits n) = n := by
  induction n using Nat.strong_induction_on with
  | _ n ih =>
    by_cases h : n < 10
    · rw [natDigits_small n h]
      show valD [digitChar n] = n
      simp [valD, List.foldl, digitVal_digitChar n (by omega)]
    · rw [natDigits_cons n (by omega), valD_append_one, ih (n / 10) (by omega),
        digitVal_digitChar _ (by omega)]
      omega

lemma natDigits_ne_nil (n : Nat) : natDigits n ≠ [] := by
  by_cases h : n < 10
  · rw [natDigits_small n h]
    simp
  · rw [natDigits_cons n (by omega)]
    simp

/-!  ## List scanning helpers  -/

lemma takeWhile_append_all (p : Char → Bool) : ∀ (xs ys : List Char),
    (∀ c ∈ xs, p c = true) → (∀ d, ys.head? = some d → p d = false) →
    (xs ++ ys).takeWhile p = xs := by
  intro xs
  induction xs with
  | nil =>
    intro ys _ hy
    cases ys with
    | nil => rfl
    | cons d r =>
      simp only [List.nil_append]
      rw [List.takeWhile_cons_of_neg (by simp [hy d rfl])]
  | cons x xs ih =>
    intro ys hall hy
    rw [List.cons_append, List.takeWhile_cons_of_pos (hall x (by simp))]
    rw [ih ys (fun c hc => hall c (by simp [hc])) hy]

lemma dropWhile_append_all (p : Char → Bool) : ∀ (xs ys : List Char),
    (∀ c ∈ xs, p c = true) → (xs ++ ys).dropWhile p = ys.dropWhile p := by
  intro xs
  induction xs with
  | nil => intro ys _; rfl
  | cons x xs ih =>
    intro ys hall
    rw [List.cons_append, List.dropWhile_cons_of_pos (hall x (by simp))]
    exact ih ys fun c hc => hall c (by simp [hc])

lemma isDigitCh_not_space (c : Char) (h : isDigitCh c = true) : isCppSpace c = false := by
  cases hx : isCppSpace c with
  | false => rfl
  | true =>
    exfalso
    unfold isCppSpace at hx
    simp only [Bool.or_eq_true, decide_eq_true_eq] at hx
    rcases hx with ((((h1 | h1) | h1) | h1) | h1) | h1 <;> subst h1 <;>
      exact absurd h (by decide)

/-!  ## Integer extraction round trip  -/

lemma readIntVal_intToChars (i : Int) (rest : List Char)
    (hlo : -(2 ^ 31) ≤ i) (hhi : i ≤ 2 ^ 31 - 1)
    (hrest : ∀ d, rest.head? = some d → isDigitCh d = false) :
    readIntVal (intToChars i ++ rest) = some (i, rest) := by
  have hcore : ∀ (neg : Bool) (m : Nat),
      ((if neg then -(m : Int) else (m : Int)) = i) →
      readIntCore neg (natDigits m ++ rest) = some (i, rest) := by
    intro neg m hval
    unfold readIntCore
    rw [takeWhile_append_all isDigitCh (natDigits m) rest (natDigits_digits m) hrest]
    rw [if_neg (natDigits_ne_nil m)]
    simp only [valD_natDigits]
    have hlen : (natDigits m ++ rest).drop (natDigits m).length = rest :=
      List.drop_left _ _
    rw [hlen, hval]
    rw [if_neg (by omega)]
  unfold intToChars
  by_cases hneg : i < 0
  · rw [if_pos hneg]
    unfold readIntVal
    rw [List.cons_append, List.dropWhile_cons_of_neg (by decide)]
    show readIntCore true (natDigits (-i).toNat ++ rest) = some (i, rest)
    exact hcore true (-i).toNat (by simp; omega)
  · rw [if_neg hneg]
    obtain ⟨c, ds, hds⟩ : ∃ c ds, natDigits i.toNat = c :: ds := by
      cases hn : natDigits i.toNat with
      | nil => exact absurd hn (natDigits_ne_nil _)
      | cons c ds => exact ⟨c, ds, rfl⟩
    have hdig : isDigitCh c = true := natDigits_digits i.toNat c (by rw [hds]; simp)
    unfold readIntVal
    rw [hds, List.cons_append, List.dropWhile_cons_of_neg (by simp [isDigitCh_not_space c hdig])]
    have hc1 : c ≠ '-' := by intro he; subst he; exact absurd hdig (by decide)
    have hc2 : c ≠ '+' := by intro he; subst he; exact absurd hdig (by decide)
    show (if c = '-' then _ else if c = '+' then _ else readIntCore false (c :: (ds ++ rest)))
        = some (i, rest)
    rw [if_neg hc1, if_neg hc2]
    have : c :: (ds ++ rest) = natDigits i.toNat ++ rest := by rw [hds]; rfl
    rw [this]
    exact hcore false i.toNat (by simp; omega)

/-!  ## Character classification of rendered fields  -/

lemma mem_intToChars (c : Char) (i : Int) (h : c ∈ intToChars i) :
    isDigitCh c = true ∨ c = '-' := by
  unfold intToChars at h
  by_cases hneg : i < 0
  · rw [if_pos hneg] at h
    rcases List.mem_cons.1 h with h1 | h1
    · exact Or.inr h1
    · exact Or.inl (natDigits_digits _ c h1)
  · rw [if_neg hneg] at h
    exact Or.inl (natDigits_digits _ c h)

lemma mem_pad2 (c : Char) (n : Int) (h : c ∈ pad2 n) : isDigitCh c = true ∨ c = '-' := by
  unfold pad2 at h
  by_cases hr : 0 ≤ n ∧ n ≤ 99
  · rw [if_pos hr] at h
    simp only [List.mem_cons, List.mem_singleton] at h
    rcases h with h | h | h
    · subst h; exact Or.inl (isDigitCh_digitChar _ (by omega))
    · subst h; exact Or.inl (isDigitCh_digitChar _ (by omega))
    · simp at h
  · rw [if_neg hr] at h
    exact mem_intToChars c n h

lemma mem_pad4 (c : Char) (n : Int) (h : c ∈ pad4 n) : isDigitCh c = true ∨ c = '-' := by
  unfold pad4 at h
  by_cases hr : 0 ≤ n ∧ n ≤ 9999
  · rw [if_pos hr] at h
    simp only [List.mem_cons, List.mem_singleton] at h
    rcases h with h | h | h | h | h
    · subst h; exact Or.inl (isDigitCh_digitChar _ (by omega))
    · subst h; exact Or.inl (isDigitCh_digitChar _ (by omega))
    · subst h; exact Or.inl (isDigitCh_digitChar _ (by omega))
    · subst h; exact Or.inl (isDigitCh_digitChar _ (by omega))
    · simp at h
  · rw [if_neg hr] at h
    exact mem_intToChars c n h

lemma mem_formatTimestamp (c : Char) (t : Int) (h : c ∈ formatTimestamp t) :
    isDigitCh c = true ∨ c = '-' ∨ c = ':' ∨ c = ' ' := by
  unfold formatTimestamp renderTm at h
  simp only [List.mem_append, List.mem_cons] at h
  rcases h with h | h | h | h | h | h | h | h | h | h | h
  · rcases mem_pad4 c _ h with h1 | h1
    · exact Or.inl h1
    · exact Or.inr (Or.inl h1)
  · exact Or.inr (Or.inl h)
  · rcases mem_pad2 c _ h with h1 | h1
    · exact Or.inl h1
    · exact Or.inr (Or.inl h1)
  · exact Or.inr (Or.inl h)
  · rcases mem_pad2 c _ h with h1 | h1
    · exact Or.inl h1
    · exact Or.inr (Or.inl h1)
  · exact Or.inr (Or.inr (Or.inr h))
  · rcases mem_pad2 c _ h with h1 | h1
    · exact Or.inl h1
    · exact Or.inr (Or.inl h1)
  · exact Or.inr (Or.inr (Or.inl h))
  · rcases mem_pad2 c _ h with h1 | h1
    · exact Or.inl h1
    · exact Or.inr (Or.inl h1)
  · exact Or.inr (Or.inr (Or.inl h))
  · rcases mem_pad2 c _ h with h1 | h1
    · exact Or.inl h1
    · exact Or.inr (Or.inl h1)

/-!  ## Timestamp codec round trip  -/

lemma expectChar_cons_eq (c : Char) (r : List Char) : expectChar c (c :: r) = some r := by
  simp [expectChar]

lemma skipOneSpace_cons_of_neg (c : Char) (r : List Char) (h : isCppSpace c = false) :
    skipOneSpace (c :: r) = c :: r := by
  simp [skipOneSpace, h]

lemma renderTm_parse (tm : Tm) (hy0 : 0 ≤ tm.year) (hy1 : tm.year ≤ 9999)
    (hmo0 : 1 ≤ tm.month) (hmo1 : tm.month ≤ 12)
    (hd0 : 1 ≤ tm.day) (hd1 : tm.day ≤ 31)
    (hh0 : 0 ≤ tm.hour) (hh1 : tm.hour ≤ 23)
    (hmi0 : 0 ≤ tm.minute) (hmi1 : tm.minute ≤ 59)
    (hs0 : 0 ≤ tm.second) (hs1 : tm.second ≤ 59) :
    parseTmFields (renderTm tm) = some tm := by
  unfold renderTm parseTmFields
  have hpad4 : pad4 tm.year
      = [digitChar (tm.year.toNat / 1000 % 10), digitChar (tm.year.toNat / 100 % 10),
        digitChar (tm.year.toNat / 10 % 10), digitChar (tm.year.toNat % 10)] :=
    pad4_eq _ hy0 hy1
  rw [hpad4, List.cons_append,
    List.dropWhile_cons_of_neg
      (by simp [isDigitCh_not_space _
        (isDigitCh_digitChar (tm.year.toNat / 1000 % 10) (by omega))]),
    ← List.cons_append, ← hpad4]
  simp only []
  rw [parseNumField_pad4 _ _ _ _ hy0 hy1 hy0 hy1]
  simp only [Option.bind_eq_bind, Option.some_bind]
  rw [expectChar_cons_eq]
  simp only [Option.some_bind]
  rw [parseNumField_pad2 _ _ _ _ (by omega) (by omega) hmo0 hmo1]
  simp only [Option.some_bind]
  rw [expectChar_cons_eq]
  simp only [Option.some_bind]
  have hpadd : pad2 tm.day
      = [digitChar (tm.day.toNat / 10 % 10), digitChar (tm.day.toNat % 10)] :=
    pad2_eq _ (by omega) (by omega)
  rw [hpadd, List.cons_append,
    skipOneSpace_cons_of_neg _ _
      (isDigitCh_not_space _ (isDigitCh_digitChar (tm.day.toNat / 10 % 10) (by omega))),
    ← List.cons_append, ← hpadd]
  rw [parseNumField_pad2 _ _ _ _ (by omega) (by omega) hd0 hd1]
  simp only [Option.some_bind]
  rw [List.dropWhile_cons_of_pos (by decide)]
  have hpad : pad2 tm.hour
      = [digitChar (tm.hour.toNat / 10 % 10), digitChar (tm.hour.toNat % 10)] :=
    pad2_eq _ (by omega) (by omega)
  rw [hpad, List.cons_append,
    List.dropWhile_cons_of_neg
      (by simp [isDigitCh_not_space _
        (isDigitCh_digitChar (tm.hour.toNat / 10 % 10) (by omega))]),
    ← List.cons_append, ← hpad]
  rw [parseNumField_pad2 _ _ _ _ (by omega) (by omega) hh0 hh1]
  simp only [Option.some_bind]
  rw [expectChar_cons_eq]
  simp only [Option.some_bind]
  rw [parseNumField_pad2 _ _ _ _ (by omega) (by omega) hmi0 hmi1]
  simp only [Option.some_bind]
  rw [expectChar_cons_eq]
  simp only [Option.some_bind]
  rw [show pad2 tm.second = pad2 tm.second ++ ([] : List Char) from (List.append_nil _).symm]
  rw [parseNumField_pad2 _ _ _ _ (by omega) (by omega) hs0 (by omega)]
  simp only [Option.some_bind]
  rfl

lemma parseTimestamp_formatTimestamp (t : Int) (h0 : 0 ≤ t) (h1 : t ≤ 253402300799) :
    parseTimestamp (formatTimestamp t) = t := by
  unfold parseTimestamp formatTimestamp
  have hb := epochToTm_bounds t h0 h1
  rw [renderTm_parse _ (by omega) (by omega) (by omega) (by omega) (by omega) (by omega)
    (by omega) (by omega) (by omega) (by omega) (by omega) (by omega)]
  simp only []
  rw [tmToEpoch_epochToTm]
  rw [if_neg (by omega)]

/-!  ## Quoted-string codec lemmas  -/

lemma escapeJsonString_nil : escapeJsonString [] = [] := rfl

lemma escapeJsonString_cons (c : Char) (s : List Char) :
    escapeJsonString (c :: s) =
      (if c = '"' then ['\\', '"']
       else if c = '\\' then ['\\', '\\']
       else if c = '\x08' then ['\\', 'b']
       else if c = '\x0c' then ['\\', 'f']
       else if c = '\n' then ['\\', 'n']
       else if c = '\r' then ['\\', 'r']
       else if c = '\t' then ['\\', 't']
       else [c]) ++ escapeJsonString s := by
  simp [escapeJsonString]

lemma quotedLoopFuel_cons_quote (fuel : Nat) (r acc : List Char) :
    quotedLoopFuel (fuel + 1) ('"' :: r) acc = some (acc, r) := by
  simp [quotedLoopFuel]

lemma quotedLoopFuel_cons_escape (fuel : Nat) (c2 : Char) (r acc : List Char) :
    quotedLoopFuel (fuel + 1) ('\\' :: c2 :: r) acc = quotedLoopFuel fuel r (acc ++ [c2]) := by
  simp [quotedLoopFuel]

lemma quotedLoopFuel_cons_other (fuel : Nat) (c : Char) (r acc : List Char)
    (h1 : c ≠ '\\') (h2 : c ≠ '"') :
    quotedLoopFuel (fuel + 1) (c :: r) acc = quotedLoopFuel fuel r (acc ++ [c]) := by
  simp [quotedLoopFuel, h1, h2]

lemma quotedLoopFuel_escaped (s : List Char) (hs : ∀ c ∈ s, isEscCtl c = false) :
    ∀ (fuel : Nat) (acc rest : List Char), (escapeJsonString s).length < fuel →
      quotedLoopFuel fuel (escapeJsonString s ++ '"' :: rest) acc = some (acc ++ s, rest) := by
  induction s with
  | nil =>
    intro fuel acc rest hfuel
    cases fuel with
    | zero => omega
    | succ f =>
      rw [escapeJsonString_nil, List.nil_append, quotedLoopFuel_cons_quote]
      simp
  | cons c s ih =>
    intro fuel acc rest hfuel
    have hc : isEscCtl c = false := hs c (by simp)
    have hcb : c ≠ '\x08' ∧ c ≠ '\x0c' ∧ c ≠ '\n' ∧ c ≠ '\r' ∧ c ≠ '\t' := by
      unfold isEscCtl at hc
      simp only [Bool.or_eq_false_iff, decide_eq_false_iff_not] at hc
      exact ⟨hc.1.1.1.1, hc.1.1.1.2, hc.1.1.2, hc.1.2, hc.2⟩
    have hrest : ∀ x ∈ s, isEscCtl x = false := fun x hx => hs x (by simp [hx])
    rw [escapeJsonString_cons] at hfuel ⊢
    by_cases h1 : c = '"'
    · subst h1
      rw [if_pos rfl] at hfuel ⊢
      simp only [List.length_append, List.length_cons] at hfuel
      obtain ⟨f, rfl⟩ : ∃ f, fuel = f + 2 := ⟨fuel - 2, by omega⟩
      show quotedLoopFuel (f + 1 + 1) ('\\' :: '"' :: (escapeJsonString s ++ '"' :: rest)) acc
        = _
      rw [quotedLoopFuel_cons_escape, ih hrest (f + 1) _ _ (by omega)]
      simp
    · rw [if_neg h1] at hfuel ⊢
      by_cases h2 : c = '\\'
      · subst h2
        rw [if_pos rfl] at hfuel ⊢
        simp only [List.length_append, List.length_cons] at hfuel
        obtain ⟨f, rfl⟩ : ∃ f, fuel = f + 2 := ⟨fuel - 2, by omega⟩
        show quotedLoopFuel (f + 1 + 1) ('\\' :: '\\' :: (escapeJsonString s ++ '"' :: rest)) acc
          = _
        rw [quotedLoopFuel_cons_escape, ih hrest (f + 1) _ _ (by omega)]
        simp
      · rw [if_neg h2, if_neg hcb.1, if_neg hcb.2.1, if_neg hcb.2.2.1, if_neg hcb.2.2.2.1,
          if_neg hcb.2.2.2.2] at hfuel ⊢
        simp only [List.length_append, List.length_cons] at hfuel
        obtain ⟨f, rfl⟩ : ∃ f, fuel = f + 1 := ⟨fuel - 1, by omega⟩
        show quotedLoopFuel (f + 1) (c :: (escapeJsonString s ++ '"' :: rest)) acc = _
        rw [quotedLoopFuel_cons_other f c _ _ h2 h1, ih hrest f _ _ (by omega)]
        simp

lemma quotedLoopFuel_raw (k : List Char) (hk : ∀ c ∈ k, c ≠ '"' ∧ c ≠ '\\') :
    ∀ (fuel : Nat) (acc rest : List Char), k.length < fuel →
      quotedLoopFuel fuel (k ++ '"' :: rest) acc = some (acc ++ k, rest) := by
  induction k with
  | nil =>
    intro fuel acc rest hfuel
    cases fuel with
    | zero => omega
    | succ f =>
      rw [List.nil_append, quotedLoopFuel_cons_quote]
      simp
  | cons c k ih =>
    intro fuel acc rest hfuel
    have hc := hk c (by simp)
    simp only [List.length_cons] at hfuel
    obtain ⟨f, rfl⟩ : ∃ f, fuel = f + 1 := ⟨fuel - 1, by omega⟩
    rw [List.cons_append, quotedLoopFuel_cons_other f c _ _ hc.2 hc.1,
      ih (fun x hx => hk x (by simp [hx])) f _ _ (by omega)]
    simp

lemma quotedLoop_escaped (v rest acc : List Char) (hv : ∀ c ∈ v, isEscCtl c = false) :
    quotedLoop (escapeJsonString v ++ '"' :: rest) acc = some (acc ++ v, rest) := by
  unfold quotedLoop
  rw [quotedLoopFuel_escaped v hv _ acc rest (by simp [List.length_append]; omega)]

lemma quotedLoop_raw (k rest acc : List Char) (hk : ∀ c ∈ k, c ≠ '"' ∧ c ≠ '\\') :
    quotedLoop (k ++ '"' :: rest) acc = some (acc ++ k, rest) := by
  unfold quotedLoop
  rw [quotedLoopFuel_raw k hk _ acc rest (by simp [List.length_append]; omega)]

lemma readQuoted_quote (r : List Char) : readQuoted ('"' :: r) = quotedLoop r [] := by
  unfold readQuoted
  rw [List.dropWhile_cons_of_neg (by decide)]
  simp

lemma readQuoted_escaped (v rest : List Char) (hv : ∀ c ∈ v, isEscCtl c = false) :
    readQuoted ('"' :: (escapeJsonString v ++ '"' :: rest)) = some (v, rest) := by
  rw [readQuoted_quote, quotedLoop_escaped v rest [] hv]
  simp

lemma readQuoted_rawkey (k rest : List Char) (hk : ∀ c ∈ k, c ≠ '"' ∧ c ≠ '\\') :
    readQuoted ('"' :: (k ++ '"' :: rest)) = some (k, rest) := by
  rw [readQuoted_quote, quotedLoop_raw k rest [] hk]
  simp

lemma escapeJsonString_id (s : List Char)
    (h : ∀ c ∈ s, c ≠ '"' ∧ c ≠ '\\' ∧ isEscCtl c = false) :
    escapeJsonString s = s := by
  induction s with
  | nil => rfl
  | cons c s ih =>
    have hc := h c (by simp)
    have hcb : c ≠ '\x08' ∧ c ≠ '\x0c' ∧ c ≠ '\n' ∧ c ≠ '\r' ∧ c ≠ '\t' := by
      have := hc.2.2
      unfold isEscCtl at this
      simp only [Bool.or_eq_false_iff, decide_eq_false_iff_not] at this
      exact ⟨this.1.1.1.1, this.1.1.1.2, this.1.1.2, this.1.2, this.2⟩
    rw [escapeJsonString_cons, if_neg hc.1, if_neg hc.2.1, if_neg hcb.1, if_neg hcb.2.1,
      if_neg hcb.2.2.1, if_neg hcb.2.2.2.1, if_neg hcb.2.2.2.2,
      ih (fun x hx => h x (by simp [hx]))]
    rfl

lemma mem_escapeJsonString (c : Char) (s : List Char) (h : c ∈ escapeJsonString s) :
    c ∈ s ∨ c ∈ ['\\', '"', 'b', 'f', 'n', 'r', 't'] := by
  induction s with
  | nil => simp [escapeJsonString_nil] at h
  | cons d s ih =>
    rw [escapeJsonString_cons, List.mem_append] at h
    rcases h with h | h
    · split_ifs at h <;> simp_all <;> rcases h with h | h <;> simp [h]
    · rcases ih h with h1 | h1
      · exact Or.inl (by simp [h1])
      · exact Or.inr h1

/-!  ## The object parser on rendered pairs  -/

lemma intToChars_head (n : Int) :
    ∃ c r, intToChars n = c :: r ∧ isCppSpace c = false ∧ c ≠ '"' ∧ c ≠ rbrace := by
  unfold intToChars
  by_cases hneg : n < 0
  · exact ⟨'-', _, by rw [if_pos hneg], by decide, by decide, by decide⟩
  · rw [if_neg hneg]
    obtain ⟨c, ds, hds⟩ : ∃ c ds, natDigits n.toNat = c :: ds := by
      cases hn : natDigits n.toNat with
      | nil => exact absurd hn (natDigits_ne_nil _)
      | cons c ds => exact ⟨c, ds, rfl⟩
    have hdig : isDigitCh c = true := natDigits_digits n.toNat c (by rw [hds]; simp)
    refine ⟨c, ds, hds, isDigitCh_not_space c hdig, ?_, ?_⟩
    · intro he
      subst he
      exact absurd hdig (by decide)
    · intro he
      subst he
      exact absurd hdig (by decide)

lemma parseLoopFuel_pairs (ps : List (List Char × JVal)) (hps : ∀ p ∈ ps, GoodPair p) :
    ∀ (fuel : Nat) (vs : List Char) (t : Task), ps.length < fuel →
      parseLoopFuel fuel ((renderPairsBody ps ++ [' ', rbrace]).dropWhile isCppSpace) vs t
        = Option.map Prod.fst (applyPairs ps vs t) := by
  induction ps with
  | nil =>
    intro fuel vs t hf
    obtain ⟨f, rfl⟩ : ∃ f, fuel = f + 1 := ⟨fuel - 1, by omega⟩
    show parseLoopFuel (f + 1) ((([] : List Char) ++ [' ', rbrace]).dropWhile isCppSpace) vs t
      = _
    rw [List.nil_append,
      List.dropWhile_cons_of_pos (by decide), List.dropWhile_cons_of_neg (by decide)]
    simp [parseLoopFuel, applyPairs, rbrace]
  | cons p ps ih =>
    obtain ⟨k, v⟩ := p
    intro fuel vs t hf
    simp only [List.length_cons] at hf
    obtain ⟨f, rfl⟩ : ∃ f, fuel = f + 1 := ⟨fuel - 1, by omega⟩
    have hgp : GoodPair (k, v) := hps (k, v) (by simp)
    have hps' : ∀ q ∈ ps, GoodPair q := fun q hq => hps q (by simp [hq])
    have hkq : ∀ c ∈ k, c ≠ '"' ∧ c ≠ '\\' := hgp.1
    have hstream : (renderPairsBody ((k, v) :: ps) ++ [' ', rbrace]).dropWhile isCppSpace
        = '"' :: (k ++ '"' :: (':' :: (' ' :: (renderJVal v
            ++ ((if ps = [] then [] else [','])
              ++ ('\n' :: (renderPairsBody ps ++ [' ', rbrace]))))))) := by
      show ((' ' :: ' ' :: ' ' :: '"' :: (k ++ _)) ++ _).dropWhile isCppSpace = _
      simp only [List.cons_append, List.append_assoc]
      rw [List.dropWhile_cons_of_pos (by decide), List.dropWhile_cons_of_pos (by decide),
        List.dropWhile_cons_of_pos (by decide), List.dropWhile_cons_of_neg (by decide)]
    rw [hstream]
    simp only [parseLoopFuel]
    rw [if_neg (by decide)]
    rw [readQuoted_rawkey k _ hkq]
    simp only []
    rw [List.dropWhile_cons_of_neg (by decide)]
    simp only []
    rw [if_neg (by decide)]
    rw [List.dropWhile_cons_of_pos (by decide)]
    rcases v with n | sv
    · -- numeric value
      obtain ⟨c0, r0, hc0, hc0ws, hc0q, _⟩ := intToChars_head n
      have hZ : (renderJVal (JVal.num n)
          ++ ((if ps = [] then [] else [','])
            ++ ('\n' :: (renderPairsBody ps ++ [' ', rbrace])))).dropWhile isCppSpace
          = renderJVal (JVal.num n)
            ++ ((if ps = [] then [] else [','])
              ++ ('\n' :: (renderPairsBody ps ++ [' ', rbrace]))) := by
        show (intToChars n ++ _).dropWhile isCppSpace = _
        rw [hc0, List.cons_append, List.dropWhile_cons_of_neg (by simp [hc0ws]),
          ← List.cons_append, ← hc0]
        rfl
      rw [hZ]
      have hhead : (renderJVal (JVal.num n)
          ++ ((if ps = [] then [] else [','])
            ++ ('\n' :: (renderPairsBody ps ++ [' ', rbrace])))).head? ≠ some '"' := by
        show (intToChars n ++ _).head? ≠ some '"'
        rw [hc0, List.cons_append]
        simp [hc0q]
      rw [if_neg hhead]
      have hread : readIntVal (renderJVal (JVal.num n)
          ++ ((if ps = [] then [] else [','])
            ++ ('\n' :: (renderPairsBody ps ++ [' ', rbrace]))))
          = some (n, (if ps = [] then [] else [','])
            ++ ('\n' :: (renderPairsBody ps ++ [' ', rbrace]))) := by
        show readIntVal (intToChars n ++ _) = _
        refine readIntVal_intToChars n _ hgp.2.1 hgp.2.2 ?_
        intro d hd
        by_cases hps0 : ps = []
        · rw [if_pos hps0] at hd
          simp at hd
          subst hd
          decide
        · rw [if_neg hps0] at hd
          simp at hd
          subst hd
          decide
      rw [hread]
      simp only []
      cases happ : applyField k (JVal.num n) vs t with
      | none =>
        show (none : Option Task) = _
        rw [show applyPairs ((k, JVal.num n) :: ps) vs t
            = match applyField k (JVal.num n) vs t with
              | none => none
              | some t' => applyPairs ps vs t' from rfl, happ]
        rfl
      | some t' =>
        rw [show applyPairs ((k, JVal.num n) :: ps) vs t
            = match applyField k (JVal.num n) vs t with
              | none => none
              | some t' => applyPairs ps vs t' from rfl, happ]
        simp only []
        by_cases hps0 : ps = []
        · subst hps0
          rw [if_pos rfl]
          show (match (('\n' :: ([] ++ [' ', rbrace])).dropWhile isCppSpace : List Char) with
            | [] => none
            | c5 :: s6 =>
              if c5 = ',' then parseLoopFuel f (s6.dropWhile isCppSpace) vs t'
              else if c5 = rbrace then some t' else none) = _
          rw [List.nil_append, List.dropWhile_cons_of_pos (by decide),
            List.dropWhile_cons_of_pos (by decide), List.dropWhile_cons_of_neg (by decide)]
          simp [applyPairs, rbrace]
        · rw [if_neg hps0]
          show (match (((',' :: ('\n' :: (renderPairsBody ps ++ [' ', rbrace])))).dropWhile
              isCppSpace : List Char) with
            | [] => none
            | c5 :: s6 =>
              if c5 = ',' then parseLoopFuel f (s6.dropWhile isCppSpace) vs t'
              else if c5 = rbrace then some t' else none) = _
          rw [List.dropWhile_cons_of_neg (by decide)]
          show parseLoopFuel f (('\n' :: (renderPairsBody ps ++ [' ', rbrace])).dropWhile
            isCppSpace) vs t' = _
          rw [List.dropWhile_cons_of_pos (by decide)]
          exact ih hps' f vs t' (by omega)
    · -- quoted string value
      have hsv : ∀ c ∈ sv, isEscCtl c = false := hgp.2
      have hZ : (renderJVal (JVal.str sv)
          ++ ((if ps = [] then [] else [','])
            ++ ('\n' :: (renderPairsBody ps ++ [' ', rbrace])))).dropWhile isCppSpace
          = '"' :: (escapeJsonString sv
            ++ '"' :: ((if ps = [] then [] else [','])
              ++ ('\n' :: (renderPairsBody ps ++ [' ', rbrace])))) := by
        show (('"' :: (escapeJsonString sv ++ ['"'])) ++ _).dropWhile isCppSpace = _
        rw [List.cons_append, List.dropWhile_cons_of_neg (by decide)]
        simp [List.append_assoc]
      rw [hZ]
      rw [if_pos (by simp)]
      rw [readQuoted_escaped sv _ hsv]
      simp only []
      cases happ : applyField k (JVal.str sv) sv t with
      | none =>
        show (none : Option Task) = _
        rw [show applyPairs ((k, JVal.str sv) :: ps) vs t
            = match applyField k (JVal.str sv) sv t with
              | none => none
              | some t' => applyPairs ps sv t' from rfl, happ]
        rfl
      | some t' =>
        rw [show applyPairs ((k, JVal.str sv) :: ps) vs t
            = match applyField k (JVal.str sv) sv t with
              | none => none
              | some t' => applyPairs ps sv t' from rfl, happ]
        simp only []
        by_cases hps0 : ps = []
        · subst hps0
          rw [if_pos rfl]
          show (match (('\n' :: ([] ++ [' ', rbrace])).dropWhile isCppSpace : List Char) with
            | [] => none
            | c5 :: s6 =>
              if c5 = ',' then parseLoopFuel f (s6.dropWhile isCppSpace) sv t'
              else if c5 = rbrace then some t' else none) = _
          rw [List.nil_append, List.dropWhile_cons_of_pos (by decide),
            List.dropWhile_cons_of_pos (by decide), List.dropWhile_cons_of_neg (by decide)]
          simp [applyPairs, rbrace]
        · rw [if_neg hps0]
          show (match (((',' :: ('\n' :: (renderPairsBody ps ++ [' ', rbrace])))).dropWhile
              isCppSpace : List Char) with
            | [] => none
            | c5 :: s6 =>
              if c5 = ',' then parseLoopFuel f (s6.dropWhile isCppSpace) sv t'
              else if c5 = rbrace then some t' else none) = _
          rw [List.dropWhile_cons_of_neg (by decide)]
          show parseLoopFuel f (('\n' :: (renderPairsBody ps ++ [' ', rbrace])).dropWhile
            isCppSpace) sv t' = _
          rw [List.dropWhile_cons_of_pos (by decide)]
          exact ih hps' f sv t' (by omega)

lemma renderPairsBody_length_ge (ps : List (List Char × JVal)) :
    ps.length ≤ (renderPairsBody ps).length := by
  induction ps with
  | nil => simp [renderPairsBody]
  | cons p ps ih =>
    obtain ⟨k, v⟩ := p
    show ps.length + 1 ≤ (' ' :: ' ' :: ' ' :: '"' :: (k ++ _)).length
    simp only [List.length_cons, List.length_append]
    omega

lemma mkObjStr_valid (ps : List (List Char × JVal)) :
    mkObjStr ps ≠ [] ∧ (mkObjStr ps).head? = some lbrace ∧
      (mkObjStr ps).getLast? = some rbrace := by
  refine ⟨by simp [mkObjStr], by simp [mkObjStr], ?_⟩
  rw [mkObjStr, show lbrace :: '\n' :: (renderPairsBody ps ++ [' ', rbrace])
      = (lbrace :: '\n' :: (renderPairsBody ps ++ [' '])) ++ [rbrace] by simp]
  exact List.getLast?_concat _

lemma parseTaskObject_mkObj (ps : List (List Char × JVal)) (hps : ∀ p ∈ ps, GoodPair p) :
    parseTaskObject (mkObjStr ps) = Option.map Prod.fst (applyPairs ps [] default) := by
  obtain ⟨h1, h2, h3⟩ := mkObjStr_valid ps
  unfold parseTaskObject
  rw [if_neg (by push_neg; exact ⟨h1, by simp [h2], by simp [h3]⟩)]
  have hdrop : ((mkObjStr ps).drop 1).dropWhile isCppSpace
      = (renderPairsBody ps ++ [' ', rbrace]).dropWhile isCppSpace := by
    show (('\n' :: (renderPairsBody ps ++ [' ', rbrace])) : List Char).dropWhile isCppSpace = _
    rw [List.dropWhile_cons_of_pos (by decide)]
  rw [hdrop]
  refine parseLoopFuel_pairs ps hps _ [] default ?_
  have := renderPairsBody_length_ge ps
  simp only [mkObjStr, List.length_cons, List.length_append]
  omega

/-!  ## The serialized task object  -/

lemma isDigitCh_safe (c : Char) (h : isDigitCh c = true) :
    c ≠ '"' ∧ c ≠ '\\' ∧ isEscCtl c = false ∧ c ≠ lbrace ∧ c ≠ rbrace := by
  refine ⟨?_, ?_, ?_, ?_, ?_⟩
  · intro he; subst he; exact absurd h (by decide)
  · intro he; subst he; exact absurd h (by decide)
  · cases hx : isEscCtl c with
    | false => rfl
    | true =>
      exfalso
      unfold isEscCtl at hx
      simp only [Bool.or_eq_true, decide_eq_true_eq] at hx
      rcases hx with (((h1 | h1) | h1) | h1) | h1 <;> subst h1 <;> exact absurd h (by decide)
  · intro he; subst he; exact absurd h (by decide)
  · intro he; subst he; exact absurd h (by decide)

lemma formatTimestamp_safe (t : Int) :
    ∀ c ∈ formatTimestamp t, c ≠ '"' ∧ c ≠ '\\' ∧ isEscCtl c = false ∧
      c ≠ lbrace ∧ c ≠ rbrace := by
  intro c hc
  rcases mem_formatTimestamp c t hc with h | h | h | h
  · exact isDigitCh_safe c h
  · subst h; refine ⟨by decide, by decide, by decide, by decide, by decide⟩
  · subst h; refine ⟨by decide, by decide, by decide, by decide, by decide⟩
  · subst h; refine ⟨by decide, by decide, by decide, by decide, by decide⟩

lemma stringToStatus_statusToString (st : TaskStatus) :
    stringToStatus (statusToString st) = st := by
  cases st <;> decide

lemma escapeJsonString_statusToString (st : TaskStatus) :
    escapeJsonString (statusToString st) = statusToString st := by
  cases st <;> decide

lemma escapeJsonString_formatTimestamp (t : Int) :
    escapeJsonString (formatTimestamp t) = formatTimestamp t := by
  apply escapeJsonString_id
  intro c hc
  have := formatTimestamp_safe t c hc
  exact ⟨this.1, this.2.1, this.2.2.1⟩

lemma taskPairs_good (task : Task) (h : GoodTask task) : ∀ p ∈ taskPairs task, GoodPair p := by
  intro p hp
  unfold taskPairs at hp
  simp only [List.mem_cons, List.not_mem_nil] at hp
  rcases hp with hp | hp | hp | hp | hp | hp
  · subst hp
    exact ⟨by decide, h.2.1, h.2.2.1⟩
  · subst hp
    exact ⟨by decide, fun c hc => (h.1 c hc).1⟩
  · subst hp
    refine ⟨by decide, ?_⟩
    cases task.status <;> decide
  · subst hp
    exact ⟨by decide, fun c hc => (formatTimestamp_safe _ c hc).2.2.1⟩
  · subst hp
    exact ⟨by decide, fun c hc => (formatTimestamp_safe _ c hc).2.2.1⟩
  · simp at hp

lemma applyPairs_taskPairs (task : Task) :
    applyPairs (taskPairs task) [] default
      = some ((⟨task.id, task.description, stringToStatus (statusToString task.status),
          parseTimestamp (formatTimestamp task.createdAt),
          parseTimestamp (formatTimestamp task.updatedAt)⟩ : Task),
        formatTimestamp task.updatedAt) := by
  rfl

lemma parseTaskObject_taskPairs (task : Task) (h : GoodTask task) :
    parseTaskObject (mkObjStr (taskPairs task)) = some task := by
  rw [parseTaskObject_mkObj _ (taskPairs_good task h), applyPairs_taskPairs]
  show some _ = some task
  congr 1
  rw [stringToStatus_statusToString,
    parseTimestamp_formatTimestamp _ h.2.2.2.1 h.2.2.2.2.1,
    parseTimestamp_formatTimestamp _ h.2.2.2.2.2.1 h.2.2.2.2.2.2]

lemma serializeTaskLines_eq (task : Task) :
    serializeTaskLines task = ' ' :: mkObjStr (taskPairs task) := by
  simp only [serializeTaskLines, mkObjStr, taskPairs, renderPairsBody, renderJVal,
    escapeJsonString_statusToString, escapeJsonString_formatTimestamp]
  simp only [List.append_assoc, List.cons_append, List.nil_append]
  rfl

/-!  ## Scanner lemmas  -/

lemma findFromFuel_none (cs : List Char) (c : Char) :
    ∀ (fuel : Nat) (start : Nat),
      (∀ j, start ≤ j → j < cs.length → cs.getD j ' ' ≠ c) →
      findFromFuel fuel cs c start = none := by
  intro fuel
  induction fuel with
  | zero => intro start _; rfl
  | succ f ih =>
    intro start h
    show findFromFuel (f + 1) cs c start = none
    rw [findFromFuel]
    by_cases hlt : start < cs.length
    · rw [if_pos hlt, if_neg (h start (le_refl _) hlt), ih (start + 1)
        (fun j hj1 hj2 => h j (by omega) hj2)]
    · rw [if_neg hlt]

lemma findFromFuel_found (cs : List Char) (c : Char) (k : Nat)
    (hk1 : k < cs.length) (hk2 : cs.getD k ' ' = c) :
    ∀ (fuel : Nat) (start : Nat), start ≤ k → k - start < fuel →
      (∀ j, start ≤ j → j < k → cs.getD j ' ' ≠ c) →
      findFromFuel fuel cs c start = some k := by
  intro fuel
  induction fuel with
  | zero => intro start _ h2 _; omega
  | succ f ih =>
    intro start h1 h2 h3
    show findFromFuel (f + 1) cs c start = some k
    rw [findFromFuel]
    by_cases heq : start = k
    · subst heq
      rw [if_pos hk1, if_pos hk2]
    · rw [if_pos (by omega), if_neg (h3 start (le_refl _) (by omega)),
        ih (start + 1) (by omega) (by omega) (fun j hj1 hj2 => h3 j (by omega) hj2)]

lemma strFind_none (cs : List Char) (c : Char) (start : Nat)
    (h : ∀ j, start ≤ j → j < cs.length → cs.getD j ' ' ≠ c) :
    strFind cs c start = none :=
  findFromFuel_none cs c _ start h

lemma strFind_found (cs : List Char) (c : Char) (start k : Nat)
    (hk1 : k < cs.length) (hk2 : cs.getD k ' ' = c) (h1 : start ≤ k)
    (h3 : ∀ j, start ≤ j → j < k → cs.getD j ' ' ≠ c) :
    strFind cs c start = some k :=
  findFromFuel_found cs c k hk1 hk2 _ start h1 (by omega) h3

lemma braceScanFuel_run (cs : List Char) (q : Nat)
    (hq1 : q < cs.length - 1) (hq2 : cs.getD q ' ' = rbrace) :
    ∀ (fuel : Nat) (j : Nat), j ≤ q → q - j < fuel →
      (∀ i, j ≤ i → i < q → cs.getD i ' ' ≠ lbrace ∧ cs.getD i ' ' ≠ rbrace) →
      braceScanFuel fuel cs j 1 = some q := by
  intro fuel
  induction fuel with
  | zero => intro j _ h2 _; omega
  | succ f ih =>
    intro j h1 h2 h3
    show braceScanFuel (f + 1) cs j 1 = some q
    rw [braceScanFuel]
    by_cases heq : j = q
    · subst heq
      rw [if_pos hq1, if_neg (by rw [hq2]; decide), if_pos hq2]
      norm_num
    · have hmid := h3 j (le_refl _) (by omega)
      rw [if_pos (by omega), if_neg hmid.1, if_neg hmid.2,
        ih (j + 1) (by omega) (by omega) (fun i hi1 hi2 => h3 i (by omega) hi2)]

lemma braceScan_flat (cs : List Char) (p q : Nat)
    (hp : cs.getD p ' ' = lbrace) (hpq : p < q)
    (hq1 : q < cs.length - 1) (hq2 : cs.getD q ' ' = rbrace)
    (hmid : ∀ i, p < i → i < q → cs.getD i ' ' ≠ lbrace ∧ cs.getD i ' ' ≠ rbrace) :
    braceScan cs p = some q := by
  unfold braceScan
  obtain ⟨f, hf⟩ : ∃ f, cs.length + 1 = f + 1 := ⟨cs.length, rfl⟩
  rw [hf, braceScanFuel, if_pos (by omega), if_pos hp]
  have : (0 : Int) + 1 = 1 := by norm_num
  rw [this]
  exact braceScanFuel_run cs q hq1 hq2 f (p + 1) (by omega) (by omega)
    (fun i hi1 hi2 => hmid i (by omega) hi2)

lemma serializeBody_cons (task : Task) (ts : List Task) :
    serializeBody (task :: ts)
      = serializeTaskLines task
        ++ ((if ts = [] then [] else [',']) ++ '\n' :: serializeBody ts) := by
  cases ts with
  | nil => simp [serializeBody]
  | cons t2 ts2 => simp [serializeBody]

lemma serializeBody_length_ge (ts : List Task) : ts.length ≤ (serializeBody ts).length := by
  induction ts with
  | nil => simp [serializeBody]
  | cons t ts ih =>
    rw [serializeBody_cons, serializeTaskLines_eq]
    simp only [List.length_append, List.length_cons]
    omega

lemma mem_renderJVal_no_brace (c : Char) (v : JVal)
    (hv : match v with
          | JVal.num _ => True
          | JVal.str s => ∀ x ∈ s, x ≠ lbrace ∧ x ≠ rbrace)
    (h : c ∈ renderJVal v) : c ≠ lbrace ∧ c ≠ rbrace := by
  rcases v with n | s
  · rcases mem_intToChars c n h with h1 | h1
    · exact ⟨(isDigitCh_safe c h1).2.2.2.1, (isDigitCh_safe c h1).2.2.2.2⟩
    · subst h1; exact ⟨by decide, by decide⟩
  · simp only [renderJVal, List.mem_cons, List.mem_append, List.mem_singleton] at h
    rcases h with h | h | h
    · subst h; exact ⟨by decide, by decide⟩
    · rcases mem_escapeJsonString c s h with h1 | h1
      · exact hv c h1
      · simp only [List.mem_cons, List.not_mem_nil, or_false] at h1
        rcases h1 with h1 | h1 | h1 | h1 | h1 | h1 | h1 <;> subst h1 <;>
          exact ⟨by decide, by decide⟩
    · rcases h with h | h
      · subst h; exact ⟨by decide, by decide⟩
      · simp at h

lemma mem_renderPairsBody_no_brace (ps : List (List Char × JVal))
    (hps : ∀ p ∈ ps, (∀ x ∈ p.1, x ≠ lbrace ∧ x ≠ rbrace) ∧
      (match p.2 with
       | JVal.num _ => True
       | JVal.str s => ∀ x ∈ s, x ≠ lbrace ∧ x ≠ rbrace)) :
    ∀ c ∈ renderPairsBody ps, c ≠ lbrace ∧ c ≠ rbrace := by
  induction ps with
  | nil => intro c hc; simp [renderPairsBody] at hc
  | cons p ps ih =>
    obtain ⟨k, v⟩ := p
    intro c hc
    have hp := hps (k, v) (by simp)
    simp only [renderPairsBody, List.mem_cons, List.mem_append] at hc
    rcases hc with hc | hc | hc | hc | hc | hc | hc | hc | hc | hc | hc | hc
    · subst hc; exact ⟨by decide, by decide⟩
    · subst hc; exact ⟨by decide, by decide⟩
    · subst hc; exact ⟨by decide, by decide⟩
    · subst hc; exact ⟨by decide, by decide⟩
    · exact hp.1 c hc
    · subst hc; exact ⟨by decide, by decide⟩
    · subst hc; exact ⟨by decide, by decide⟩
    · subst hc; exact ⟨by decide, by decide⟩
    · exact mem_renderJVal_no_brace c v hp.2 hc
    · by_cases hps0 : ps = []
      · rw [if_pos hps0] at hc
        simp at hc
      · rw [if_neg hps0] at hc
        simp only [List.mem_singleton] at hc
        subst hc
        exact ⟨by decide, by decide⟩
    · subst hc; exact ⟨by decide, by decide⟩
    · exact ih (fun q hq => hps q (by simp [hq])) c hc

lemma taskPairs_no_brace (task : Task) (h : GoodTask task) :
    ∀ c ∈ renderPairsBody (taskPairs task), c ≠ lbrace ∧ c ≠ rbrace := by
  apply mem_renderPairsBody_no_brace
  intro p hp
  unfold taskPairs at hp
  simp only [List.mem_cons, List.not_mem_nil] at hp
  rcases hp with hp | hp | hp | hp | hp | hp
  · subst hp
    exact ⟨(by decide : ∀ x ∈ "id".toList, x ≠ lbrace ∧ x ≠ rbrace), trivial⟩
  · subst hp
    exact ⟨(by decide : ∀ x ∈ "description".toList, x ≠ lbrace ∧ x ≠ rbrace),
      fun x hx => ⟨(h.1 x hx).2.1, (h.1 x hx).2.2⟩⟩
  · subst hp
    refine ⟨(by decide : ∀ x ∈ "status".toList, x ≠ lbrace ∧ x ≠ rbrace), ?_⟩
    show ∀ x ∈ statusToString task.status, x ≠ lbrace ∧ x ≠ rbrace
    cases task.status <;> decide
  · subst hp
    exact ⟨(by decide : ∀ x ∈ "createdAt".toList, x ≠ lbrace ∧ x ≠ rbrace),
      fun x hx => ⟨(formatTimestamp_safe _ x hx).2.2.2.1,
        (formatTimestamp_safe _ x hx).2.2.2.2⟩⟩
  · subst hp
    exact ⟨(by decide : ∀ x ∈ "updatedAt".toList, x ≠ lbrace ∧ x ≠ rbrace),
      fun x hx => ⟨(formatTimestamp_safe _ x hx).2.2.2.1,
        (formatTimestamp_safe _ x hx).2.2.2.2⟩⟩
  · simp at hp

lemma inner_no_brace (task : Task) (h : GoodTask task) :
    ∀ c ∈ ('\n' :: (renderPairsBody (taskPairs task) ++ [' '])), c ≠ lbrace ∧ c ≠ rbrace := by
  intro c hc
  simp only [List.mem_cons, List.mem_append, List.mem_singleton] at hc
  rcases hc with hc | hc | hc | hc
  · subst hc; exact ⟨by decide, by decide⟩
  · exact taskPairs_no_brace task h c hc
  · subst hc; exact ⟨by decide, by decide⟩
  · simp at hc

lemma scan_main (rest : List Task) :
    ∀ (pre : List Char) (start : Nat) (acc : List Task) (fuel : Nat),
      (∀ t ∈ rest, GoodTask t) →
      rest.length < fuel →
      start ≤ pre.length →
      (∀ j, start ≤ j → j < pre.length → pre.getD j ' ' ≠ lbrace) →
      scanLoopFuel fuel (pre ++ (serializeBody rest ++ [']'])) start acc = acc ++ rest := by
  induction rest with
  | nil =>
    intro pre start acc fuel _ hfuel hsp hnb
    obtain ⟨f, rfl⟩ : ∃ f, fuel = f + 1 := ⟨fuel - 1, by omega⟩
    rw [scanLoopFuel]
    rw [show serializeBody [] ++ [']'] = [']'] from rfl]
    by_cases hlt : start < (pre ++ [']']).length - 1
    · rw [if_pos hlt]
      rw [strFind_none _ _ _ ?_]
      · simp
      · intro j hj1 hj2
        simp only [List.length_append, List.length_cons, List.length_nil] at hj2
        by_cases hjp : j < pre.length
        · rw [List.getD_append _ _ _ _ hjp]
          exact hnb j hj1 hjp
        · have hj : j = pre.length := by omega
          subst hj
          rw [List.getD_append_right _ _ _ _ (le_refl _)]
          rw [show pre.length - pre.length = 0 by omega]
          decide
    · rw [if_neg hlt]
      simp
  | cons t ts ih =>
    intro pre start acc fuel hgood hfuel hsp hnb
    obtain ⟨f, rfl⟩ : ∃ f, fuel = f + 1 := ⟨fuel - 1, by omega⟩
    have hgt : GoodTask t := hgood t (by simp)
    have hgts : ∀ x ∈ ts, GoodTask x := fun x hx => hgood x (by simp [hx])
    set objC := mkObjStr (taskPairs t) with hobjCdef
    set inner := ('\n' :: (renderPairsBody (taskPairs t) ++ [' '])) with hinnerdef
    have hobjC : objC = lbrace :: (inner ++ [rbrace]) := by
      rw [hobjCdef, hinnerdef, mkObjStr]
      simp [List.append_assoc]
    have hinnerLen : objC.length = inner.length + 2 := by
      rw [hobjC]
      simp
    set sep := (if ts = [] then ([] : List Char) else [',']) with hsepdef
    set Z := sep ++ ('\n' :: (serializeBody ts ++ [']'])) with hZdef
    have hC : pre ++ (serializeBody (t :: ts) ++ [']']) = pre ++ (' ' :: (objC ++ Z)) := by
      rw [serializeBody_cons, serializeTaskLines_eq, hZdef, hsepdef]
      simp [List.append_assoc]
    set P := pre.length with hP
    clear_value objC inner sep Z P
    have hsepLen : sep.length ≤ 1 := by
      rw [hsepdef]
      split <;> simp
    have hobjLen : 2 ≤ objC.length := by omega
    have hZlen : 2 ≤ Z.length := by
      rw [hZdef]
      simp only [List.length_append, List.length_cons]
      omega
    have hClen : (pre ++ (serializeBody (t :: ts) ++ [']'])).length
        = P + 1 + objC.length + Z.length := by
      rw [hC]
      simp only [List.length_append, List.length_cons, hP]
      omega
    have hgetObj : ∀ i, i < objC.length →
        (pre ++ (serializeBody (t :: ts) ++ [']'])).getD (P + 1 + i) ' ' = objC.getD i ' ' := by
      intro i hi
      rw [hC, List.getD_append_right _ _ _ _ (by omega)]
      rw [show P + 1 + i - pre.length = i + 1 by omega]
      show (objC ++ Z).getD i ' ' = _
      rw [List.getD_append _ _ _ _ hi]
    have hlb : (pre ++ (serializeBody (t :: ts) ++ [']'])).getD (P + 1) ' ' = lbrace := by
      have h0 := hgetObj 0 (by omega)
      rw [show P + 1 + 0 = P + 1 by omega] at h0
      rw [h0, hobjC]
      rfl
    have hq : (pre ++ (serializeBody (t :: ts) ++ [']'])).getD (P + objC.length) ' '
        = rbrace := by
      have h0 := hgetObj (objC.length - 1) (by omega)
      rw [show P + 1 + (objC.length - 1) = P + objC.length by omega] at h0
      rw [h0, hinnerLen, hobjC]
      rw [show inner.length + 2 - 1 = inner.length + 1 by omega]
      show (inner ++ [rbrace]).getD inner.length ' ' = rbrace
      rw [List.getD_append_right _ _ _ _ (le_refl _)]
      rw [show inner.length - inner.length = 0 by omega]
      rfl
    have hmid : ∀ j, P + 1 < j → j < P + objC.length →
        (pre ++ (serializeBody (t :: ts) ++ [']'])).getD j ' ' ≠ lbrace ∧
          (pre ++ (serializeBody (t :: ts) ++ [']'])).getD j ' ' ≠ rbrace := by
      intro j hj1 hj2
      have h0 := hgetObj (j - P - 1) (by omega)
      rw [show P + 1 + (j - P - 1) = j by omega] at h0
      rw [h0, hobjC]
      obtain ⟨m, hm⟩ : ∃ m, j - P - 1 = m + 1 := ⟨j - P - 2, by omega⟩
      rw [hm]
      show (inner ++ [rbrace]).getD m ' ' ≠ lbrace ∧ (inner ++ [rbrace]).getD m ' ' ≠ rbrace
      have hmlt : m < inner.length := by omega
      rw [List.getD_append _ _ _ _ hmlt]
      have hmem : inner.getD m ' ' ∈ inner := by
        rw [List.getD_eq_getElem _ _ hmlt]
        exact List.getElem_mem hmlt
      set x := inner.getD m ' ' with hx
      rw [hinnerdef] at hmem
      exact inner_no_brace t hgt x hmem
    have hfind : strFind (pre ++ (serializeBody (t :: ts) ++ [']'])) lbrace start
        = some (P + 1) := by
      apply strFind_found
      · rw [hClen]
        omega
      · exact hlb
      · omega
      · intro j hj1 hj2
        by_cases hjp : j < P
        · rw [hC, List.getD_append _ _ _ _ (by omega)]
          exact hnb j hj1 (by omega)
        · have hj : j = P := by omega
          rw [hC, hj, hP, List.getD_append_right _ _ _ _ (le_refl _)]
          rw [show pre.length - pre.length = 0 by omega, List.getD_cons_zero]
          decide
    have hbrace : braceScan (pre ++ (serializeBody (t :: ts) ++ [']'])) (P + 1)
        = some (P + objC.length) := by
      apply braceScan_flat _ _ _ hlb (by omega) _ hq hmid
      rw [hClen]
      omega
    have hdrop : ((pre ++ (serializeBody (t :: ts) ++ [']'])).drop (P + 1)).take
        (P + objC.length - (P + 1) + 1) = objC := by
      rw [show P + objC.length - (P + 1) + 1 = objC.length by omega]
      rw [hC, show pre ++ (' ' :: (objC ++ Z)) = (pre ++ [' ']) ++ (objC ++ Z) by simp]
      rw [show P + 1 = (pre ++ [' ']).length by simp [hP]]
      rw [List.drop_left]
      exact List.take_left _ _
    rw [scanLoopFuel]
    rw [if_pos (by rw [hClen]; omega)]
    rw [hfind]
    simp only []
    rw [hbrace]
    simp only []
    have hpt : parseTaskObject objC = some t := by
      rw [hobjCdef]
      exact parseTaskObject_taskPairs t hgt
    rw [hdrop, hpt]
    simp only []
    have hC2 : pre ++ (serializeBody (t :: ts) ++ [']'])
        = (pre ++ (' ' :: (objC ++ (sep ++ ['\n'])))) ++ (serializeBody ts ++ [']']) := by
      rw [hC, hZdef]
      simp [List.append_assoc]
    rw [hC2]
    have hres := ih (pre ++ (' ' :: (objC ++ (sep ++ ['\n'])))) (P + objC.length + 1)
      (acc ++ [t]) f hgts (by simp at hfuel; omega)
      (by simp only [List.length_append, List.length_cons, hP]; omega)
      ?_
    · rw [hres]
      simp
    · intro j hj1 hj2
      have hlen2 : (pre ++ (' ' :: (objC ++ (sep ++ ['\n'])))).length
          = P + 1 + objC.length + sep.length + 1 := by
        simp only [List.length_append, List.length_cons, List.length_nil]
        omega
      rw [hlen2] at hj2
      rw [List.getD_append_right _ _ _ _ (show pre.length ≤ j by omega)]
      obtain ⟨m, hm⟩ : ∃ m, j - pre.length = m + 1 := ⟨j - pre.length - 1, by omega⟩
      rw [hm]
      show (objC ++ (sep ++ ['\n'])).getD m ' ' ≠ lbrace
      rw [List.getD_append_right _ _ _ _ (show objC.length ≤ m by omega)]
      rcases Nat.lt_or_ge (m - objC.length) sep.length with hx | hx
      · rw [List.getD_append _ _ _ _ hx]
        rw [hsepdef] at hx ⊢
        by_cases hts : ts = []
        · rw [if_pos hts] at hx
          simp at hx
        · rw [if_neg hts] at hx ⊢
          simp only [List.length_cons, List.length_nil] at hx
          rw [show m - objC.length = 0 by omega, List.getD_cons_zero]
          decide
      · rw [List.getD_append_right _ _ _ _ hx]
        rw [show m - objC.length - sep.length = 0 by omega, List.getD_cons_zero]
        decide

/-- Trimming the text `saveTasks` writes removes exactly the final newline:
the leading character is `[` and the trailing `]` is kept. -/
lemma trim_save (l : List Task) :
    trimContent (saveTasksContent l) = ('[' :: '\n' :: serializeBody l) ++ [']'] := by
  have h1 : saveTasksContent l = '[' :: ('\n' :: (serializeBody l ++ [']', '\n'])) := by
    unfold saveTasksContent
    simp
  have h2 : ('[' : Char) :: ('\n' :: (serializeBody l ++ [']', '\n'])) =
      (('[' :: '\n' :: serializeBody l) ++ [']']) ++ ['\n'] := by simp
  unfold trimContent
  rw [h1, List.dropWhile_cons_of_neg (by decide), h2, List.reverse_append,
    show (['\n'] : List Char).reverse = ['\n'] from rfl,
    List.singleton_append, List.dropWhile_cons_of_pos (by decide),
    List.reverse_append, show (([']'] : List Char)).reverse = [']'] from rfl,
    List.singleton_append, List.dropWhile_cons_of_neg (by decide),
    List.reverse_cons, List.reverse_reverse]

/-- The round trip through the file text: loading the exact text written by
`saveTasks` recovers the task list, provided every task is `GoodTask`
(description free of the escaped control characters and of braces, 32-bit
id, timestamps representable as `YYYY-MM-DD HH:MM:SS`). -/
lemma load_save_roundtrip (l : List Task) (h : ∀ t ∈ l, GoodTask t) :
    loadTasksFromContent (saveTasksContent l) = l := by
  have hB := serializeBody_length_ge l
  simp only [loadTasksFromContent]
  rw [trim_save]
  rw [if_neg]
  · have hsplit : (('[' :: '\n' :: serializeBody l) ++ [']']) =
        ['[', '\n'] ++ (serializeBody l ++ [']']) := by simp
    rw [hsplit]
    rw [scan_main l ['[', '\n'] 1 [] _ h ?_ (by decide) ?_]
    · simp
    · simp only [List.length_append, List.length_cons, List.length_nil]
      omega
    · intro j hj1 hj2
      simp only [List.length_cons, List.length_nil] at hj2
      have hj : j = 1 := by omega
      rw [hj]
      decide
  · push_neg
    refine ⟨?_, ?_, ?_⟩
    · simp only [List.length_append, List.length_cons, List.length_nil]
      omega
    · rfl
    · exact List.getLast?_concat _

/-!  ## The claims  -/

/-- Claim C1 (corrected): the save/load round trip recovers the task list
under the stated restrictions: every description avoids the five escaped
control characters and the brace characters, every id fits in 32 bits, and
every timestamp lies in `0..253402300799` (`1970-01-01 00:00:00` through
`9999-12-31 23:59:59`).  Ids, descriptions, statuses, timestamps and the
record order are all preserved.  The unrestricted claim is refuted by
`C1_roundtrip_counterexample`. -/
theorem C1_roundtrip (tasks : List Task) (disk : Option (List Char))
    (h : ∀ t ∈ tasks, GoodTask t) :
    loadTasks (saveTasks true tasks disk) = tasks := by
  show loadTasksFromContent (saveTasksContent tasks) = tasks
  exact load_save_roundtrip tasks h

set_option maxRecDepth 10000 in
/-- Claim C1 counterexample: a description holding a newline does not
round-trip.  The serializer escapes it as a backslash-`n` two-character
sequence, but the reader's quoted-string extraction maps every escaped
character to the character itself, so the parsed description is the plain
letter `n`. -/
theorem C1_roundtrip_counterexample :
    loadTasks (saveTasks true [(⟨1, ['\n'], TaskStatus.TODO, 0, 0⟩ : Task)] none)
      ≠ [(⟨1, ['\n'], TaskStatus.TODO, 0, 0⟩ : Task)] := by decide

/-- Claim C1 witness: the round trip at a concrete one-task list. -/
theorem C1_roundtrip_witness :
    (∀ t ∈ [(⟨1, "buy milk".toList, TaskStatus.IN_PROGRESS, 1700000000, 1700000001⟩ : Task)],
        GoodTask t) ∧
      loadTasks (saveTasks true
          [(⟨1, "buy milk".toList, TaskStatus.IN_PROGRESS, 1700000000, 1700000001⟩ : Task)] none)
        = [(⟨1, "buy milk".toList, TaskStatus.IN_PROGRESS, 1700000000, 1700000001⟩ : Task)] :=
  ⟨by decide, C1_roundtrip _ none (by decide)⟩

/-- Claim C2 (corrected): the quoted-string decode inverts the encode
exactly on strings free of the five single-character control escapes
(backspace, form-feed, newline, carriage return, tab); escaped quotes and
backslashes are restored faithfully.  On the five control characters the
inverse property fails (`C2_decode_encode_counterexample`). -/
theorem C2_decode_encode (s rest : List Char) (hs : ∀ c ∈ s, isEscCtl c = false) :
    readQuoted ('"' :: (escapeJsonString s ++ '"' :: rest)) = some (s, rest) :=
  readQuoted_escaped s rest hs

/-- Claim C2 counterexample: the encoded newline decodes to the letter `n`,
because extraction maps any escaped character to the character itself. -/
theorem C2_decode_encode_counterexample :
    readQuoted ('"' :: (escapeJsonString ['\n'] ++ '"' :: [])) = some (['n'], [])
      ∧ ['n'] ≠ ['\n'] := by decide

/-- Claim C2 witness: decode after encode at a string holding a quote and a
backslash. -/
theorem C2_decode_encode_witness :
    (∀ c ∈ ['a', '"', 'b', '\\', 'c'], isEscCtl c = false) ∧
      readQuoted ('"' :: (escapeJsonString ['a', '"', 'b', '\\', 'c'] ++ '"' :: []))
        = some (['a', '"', 'b', '\\', 'c'], []) :=
  ⟨by decide, C2_decode_encode _ _ (by decide)⟩

/-- Claim C3 (confirmed): whenever the brace-depth scan of the object found
next fails to return to depth zero (`braceScan` exhausts the text), the
scanning loop returns the empty list, discarding the accumulated tasks
`acc`; in particular `"[\x7b\"id\":1]"` loads as the empty list. -/
theorem C3_unbalanced_abort (content : List Char) (start j : Nat) (acc : List Task)
    (fuel : Nat)
    (hlt : start < content.length - 1)
    (hfind : strFind content lbrace start = some j)
    (hscan : braceScan content j = none) :
    scanLoopFuel (fuel + 1) content start acc = [] ∧
      loadTasks (some "[\x7b\"id\":1]".toList) = [] := by
  constructor
  · rw [scanLoopFuel, if_pos hlt, hfind]
    simp only [hscan]
  · decide

/-- Claim C3 witness: the scanning loop at the unbalanced input
`"[\x7b\"id\":1]"`. -/
theorem C3_unbalanced_abort_witness :
    (1 < ("[\x7b\"id\":1]".toList).length - 1 ∧
        strFind "[\x7b\"id\":1]".toList lbrace 1 = some 1 ∧
        braceScan "[\x7b\"id\":1]".toList 1 = none) ∧
      (scanLoopFuel (41 + 1) "[\x7b\"id\":1]".toList 1 [] = [] ∧
        loadTasks (some "[\x7b\"id\":1]".toList) = []) :=
  ⟨by decide, C3_unbalanced_abort _ 1 1 [] 41 (by decide) (by decide) (by decide)⟩

/-- Claim C4 (confirmed): when the brace-depth scan delimits an object that
`parseTaskObject` rejects, the scanning loop appends nothing and continues
just past that object's closing brace `e`; in particular the two-object
array `"[\x7bid:1\x7d,\x7b\"id\":2\x7d]"`, whose first object has an
unquoted key, loads as the one-element list holding the second object's
data. -/
theorem C4_skip_bad_object (content : List Char) (start j e : Nat) (acc : List Task)
    (fuel : Nat)
    (hlt : start < content.length - 1)
    (hfind : strFind content lbrace start = some j)
    (hscan : braceScan content j = some e)
    (hfail : parseTaskObject ((content.drop j).take (e - j + 1)) = none) :
    scanLoopFuel (fuel + 1) content start acc = scanLoopFuel fuel content (e + 1) acc ∧
      loadTasks (some "[\x7bid:1\x7d,\x7b\"id\":2\x7d]".toList)
        = [(⟨2, [], TaskStatus.TODO, 0, 0⟩ : Task)] := by
  constructor
  · rw [scanLoopFuel, if_pos hlt, hfind]
    simp only [hscan, hfail]
  · decide

/-- Claim C4 witness: the skip step at the failing first object of
`"[\x7bid:1\x7d,\x7b\"id\":2\x7d]"`. -/
theorem C4_skip_bad_object_witness :
    (1 < ("[\x7bid:1\x7d,\x7b\"id\":2\x7d]".toList).length - 1 ∧
        strFind "[\x7bid:1\x7d,\x7b\"id\":2\x7d]".toList lbrace 1 = some 1 ∧
        braceScan "[\x7bid:1\x7d,\x7b\"id\":2\x7d]".toList 1 = some 6 ∧
        parseTaskObject (("[\x7bid:1\x7d,\x7b\"id\":2\x7d]".toList.drop 1).take (6 - 1 + 1))
          = none) ∧
      (scanLoopFuel (10 + 1) "[\x7bid:1\x7d,\x7b\"id\":2\x7d]".toList 1 []
          = scanLoopFuel 10 "[\x7bid:1\x7d,\x7b\"id\":2\x7d]".toList (6 + 1) [] ∧
        loadTasks (some "[\x7bid:1\x7d,\x7b\"id\":2\x7d]".toList)
          = [(⟨2, [], TaskStatus.TODO, 0, 0⟩ : Task)]) :=
  ⟨by decide, C4_skip_bad_object _ 1 1 6 [] 10 (by decide) (by decide) (by decide) (by decide)⟩

/-- Claim C5 (confirmed): any raw text whose trimmed form has length at
most one, or does not start with `[`, or does not end with `]`, loads as
the empty list; in particular an absent file, a zero-length file, a
whitespace-only file and the input `"\x7b\x7d"` all load as the empty
list, and `loadTasks` is a total function (it never raises). -/
theorem C5_framing_invalid (raw : List Char)
    (h : (trimContent raw).length ≤ 1 ∨ (trimContent raw).head? ≠ some '[' ∨
        (trimContent raw).getLast? ≠ some ']') :
    loadTasksFromContent raw = [] ∧ loadTasks none = [] ∧
      loadTasks (some []) = [] ∧ loadTasks (some "   ".toList) = [] ∧
      loadTasks (some ['\x7b', '\x7d']) = [] := by
  refine ⟨?_, rfl, by decide, by decide, by decide⟩
  simp only [loadTasksFromContent]
  rw [if_pos h]

/-- Claim C5 witness: the framing rejection at the object-not-array input
`"\x7b\x7d"`. -/
theorem C5_framing_invalid_witness :
    ((trimContent ['\x7b', '\x7d']).length ≤ 1 ∨
        (trimContent ['\x7b', '\x7d']).head? ≠ some '[' ∨
        (trimContent ['\x7b', '\x7d']).getLast? ≠ some ']') ∧
      (loadTasksFromContent ['\x7b', '\x7d'] = [] ∧ loadTasks none = [] ∧
        loadTasks (some []) = [] ∧ loadTasks (some "   ".toList) = [] ∧
        loadTasks (some ['\x7b', '\x7d']) = []) :=
  ⟨by decide, C5_framing_invalid _ (by decide)⟩

/-- Claim C7 (confirmed): an object whose `id` key carries a double-quoted
value fails the object-level parse, whatever well-formed pairs follow. -/
theorem C7_quoted_id_fails (v : List Char) (ps : List (List Char × JVal))
    (hps : ∀ p ∈ (("id".toList, JVal.str v) :: ps), GoodPair p) :
    parseTaskObject (mkObjStr (("id".toList, JVal.str v) :: ps)) = none := by
  rw [parseTaskObject_mkObj _ hps]
  have happ : applyPairs (("id".toList, JVal.str v) :: ps) [] default = none := rfl
  rw [happ]
  rfl

/-- Claim C7 witness: the quoted-id failure at the object with the single
pair `"id": "1"`. -/
theorem C7_quoted_id_fails_witness :
    (∀ p ∈ [("id".toList, JVal.str "1".toList)], GoodPair p) ∧
      parseTaskObject (mkObjStr [("id".toList, JVal.str "1".toList)]) = none :=
  ⟨by decide, C7_quoted_id_fails "1".toList [] (by decide)⟩

/-- Claim C8 (confirmed): when the destination cannot be opened for
writing, `saveTasks` performs no stream write at all and the on-disk file
state is unchanged. -/
theorem C8_save_unopenable (tasks : List Task) (disk : Option (List Char)) :
    saveTasks false tasks disk = disk ∧ saveTasksWrites false tasks = [] :=
  ⟨rfl, rfl⟩

/-- Claim C9 (confirmed): every status string other than `"in-progress"`
and `"done"` decodes to `TODO`; the object with status `"unknown"` still
parses (to a `TODO` task); and every task `loadTasks` can produce carries
one of the three symbolic status values. -/
theorem C9_unknown_status_todo (s : List Char)
    (h1 : s ≠ "in-progress".toList) (h2 : s ≠ "done".toList) :
    stringToStatus s = TaskStatus.TODO ∧
      parseTaskObject (mkObjStr [("status".toList, JVal.str "unknown".toList)])
        = some (⟨0, [], TaskStatus.TODO, 0, 0⟩ : Task) ∧
      ∀ (file : Option (List Char)) (t : Task), t ∈ loadTasks file →
        t.status = TaskStatus.TODO ∨ t.status = TaskStatus.IN_PROGRESS ∨
          t.status = TaskStatus.DONE := by
  refine ⟨?_, by decide, ?_⟩
  · unfold stringToStatus
    rw [if_neg h1, if_neg h2]
  · intro file t _
    rcases t with ⟨i, d, st, c, u⟩
    cases st
    · exact Or.inl rfl
    · exact Or.inr (Or.inl rfl)
    · exact Or.inr (Or.inr rfl)

/-- Claim C9 witness: the status fallback at the string `"unknown"`. -/
theorem C9_unknown_status_todo_witness :
    ("unknown".toList ≠ "in-progress".toList ∧ "unknown".toList ≠ "done".toList) ∧
      (stringToStatus "unknown".toList = TaskStatus.TODO ∧
        parseTaskObject (mkObjStr [("status".toList, JVal.str "unknown".toList)])
          = some (⟨0, [], TaskStatus.TODO, 0, 0⟩ : Task) ∧
        ∀ (file : Option (List Char)) (t : Task), t ∈ loadTasks file →
          t.status = TaskStatus.TODO ∨ t.status = TaskStatus.IN_PROGRESS ∨
            t.status = TaskStatus.DONE) :=
  ⟨⟨by decide, by decide⟩, C9_unknown_status_todo _ (by decide) (by decide)⟩

set_option maxRecDepth 10000 in
/-- Claim C10 (confirmed): for every subset of the five recognized keys
(each of the 32 presence patterns), the object holding exactly the present
keys parses successfully and every omitted field keeps its
default-constructed value (`id 0`, empty description, `TODO`, epoch
timestamps); the empty object `"\x7b\x7d"` parses to the fully default
task. -/
theorem C10_missing_keys_default :
    (∀ b1 b2 b3 b4 b5 : Bool,
      parseTaskObject (mkObjStr (
          (if b1 then [("id".toList, JVal.num 7)] else []) ++
          (if b2 then [("description".toList, JVal.str "work".toList)] else []) ++
          (if b3 then [("status".toList, JVal.str "done".toList)] else []) ++
          (if b4 then [("createdAt".toList, JVal.str "2024-01-02 03:04:05".toList)] else []) ++
          (if b5 then [("updatedAt".toList, JVal.str "2024-01-02 03:04:06".toList)] else [])))
        = some ⟨if b1 then 7 else 0,
                if b2 then "work".toList else [],
                if b3 then TaskStatus.DONE else TaskStatus.TODO,
                if b4 then 1704164645 else 0,
                if b5 then 1704164646 else 0⟩) ∧
      parseTaskObject [lbrace, rbrace] = some (⟨0, [], TaskStatus.TODO, 0, 0⟩ : Task) :=
  ⟨by decide, by decide⟩

end TaskManager
